import Mathlib

/-!
# Projective correspondence search of cilantro: a shallow embedding

The definitions of this file follow
`include/cilantro/icp_correspondence_search_projective.hpp` and
`include/cilantro/icp_rigid_combined_metric_3d.hpp`.

Conventions of the embedding:

* `ScalarT`, `CorrespondenceScalar` and the `double` inlier fraction are the
  exact rationals `ℚ`: rounding error, infinities and not-a-number values of
  the machine types are outside the model.
* `size_t` values are natural numbers; the only place where the source relies
  on the 64-bit width, the cast of the rounded pixel coordinate, reduces
  modulo `2 ^ 64` explicitly.
* The members that the class holds by reference (destination adaptor, source
  adaptor, evaluator) are arguments of the search: the caller owns them and
  may change them between two calls.
* The two `#pragma omp parallel for` loops write one slot per index and read
  nothing another iteration writes, so each is the map of its body over the
  index range.
* A scalar that `std::sqrt` produces is kept as its radicand (`SqrtValue`); a
  residual is an optional scalar, `none` standing for the quiet not-a-number.
* The collaborators of the ICP variant that are not part of these two files
  (the rigid-transform estimator, the nearest-neighbour search of the spatial
  index, the rotation extraction of the transform type) are arguments of the
  members that call them.
-/

namespace cilantro

/-! ## Linear algebra -/

/-- Column vector with three scalar coordinates (`Vector<ScalarT,3>`). -/
structure Vector3 where
  x : ℚ
  y : ℚ
  z : ℚ
deriving DecidableEq

/-- Three by three scalar matrix (`Eigen::Matrix<ScalarT,3,3>`), entry `mij` is
row `i`, column `j`. -/
structure Matrix3 where
  m00 : ℚ
  m01 : ℚ
  m02 : ℚ
  m10 : ℚ
  m11 : ℚ
  m12 : ℚ
  m20 : ℚ
  m21 : ℚ
  m22 : ℚ
deriving DecidableEq

namespace Vector3

/-- Zero vector. -/
def zero : Vector3 := ⟨0, 0, 0⟩

/-- Coordinatewise difference. -/
def sub (a b : Vector3) : Vector3 := ⟨a.x - b.x, a.y - b.y, a.z - b.z⟩

/-- Coordinatewise sum. -/
def add (a b : Vector3) : Vector3 := ⟨a.x + b.x, a.y + b.y, a.z + b.z⟩

/-- Coordinatewise negation. -/
def neg (a : Vector3) : Vector3 := ⟨-a.x, -a.y, -a.z⟩

/-- Sum of the squared coordinates (`squaredNorm()` of Eigen). -/
def squaredNorm (a : Vector3) : ℚ := a.x * a.x + a.y * a.y + a.z * a.z

/-- Inner product (`dot` of Eigen). -/
def dot (a b : Vector3) : ℚ := a.x * b.x + a.y * b.y + a.z * b.z

end Vector3

namespace Matrix3

/-- Identity matrix. -/
def identity : Matrix3 := ⟨1, 0, 0, 0, 1, 0, 0, 0, 1⟩

/-- Transposed matrix. -/
def transpose (m : Matrix3) : Matrix3 :=
  ⟨m.m00, m.m10, m.m20, m.m01, m.m11, m.m21, m.m02, m.m12, m.m22⟩

/-- Matrix times column vector. -/
def mulVec (m : Matrix3) (v : Vector3) : Vector3 :=
  ⟨m.m00 * v.x + m.m01 * v.y + m.m02 * v.z,
   m.m10 * v.x + m.m11 * v.y + m.m12 * v.z,
   m.m20 * v.x + m.m21 * v.y + m.m22 * v.z⟩

/-- Entrywise difference. -/
def sub (a b : Matrix3) : Matrix3 :=
  ⟨a.m00 - b.m00, a.m01 - b.m01, a.m02 - b.m02,
   a.m10 - b.m10, a.m11 - b.m11, a.m12 - b.m12,
   a.m20 - b.m20, a.m21 - b.m21, a.m22 - b.m22⟩

/-- Matrix product. -/
def mul (a b : Matrix3) : Matrix3 :=
  ⟨a.m00 * b.m00 + a.m01 * b.m10 + a.m02 * b.m20,
   a.m00 * b.m01 + a.m01 * b.m11 + a.m02 * b.m21,
   a.m00 * b.m02 + a.m01 * b.m12 + a.m02 * b.m22,
   a.m10 * b.m00 + a.m11 * b.m10 + a.m12 * b.m20,
   a.m10 * b.m01 + a.m11 * b.m11 + a.m12 * b.m21,
   a.m10 * b.m02 + a.m11 * b.m12 + a.m12 * b.m22,
   a.m20 * b.m00 + a.m21 * b.m10 + a.m22 * b.m20,
   a.m20 * b.m01 + a.m21 * b.m11 + a.m22 * b.m21,
   a.m20 * b.m02 + a.m21 * b.m12 + a.m22 * b.m22⟩

/-- Sum of the squared entries (`squaredNorm()` of Eigen, the square of the
Frobenius norm). -/
def squaredNorm (a : Matrix3) : ℚ :=
  a.m00 * a.m00 + a.m01 * a.m01 + a.m02 * a.m02 + a.m10 * a.m10 + a.m11 * a.m11 +
    a.m12 * a.m12 + a.m20 * a.m20 + a.m21 * a.m21 + a.m22 * a.m22

/-- The columns are orthonormal: the transposed matrix times the matrix is the
identity. -/
def IsOrthonormal (a : Matrix3) : Prop := a.transpose.mul a = identity

end Matrix3

/-- Rigid transformation `RigidTransformation<ScalarT,3>`, an Eigen isometry
transform: a linear block and a translation. -/
structure RigidTransformation where
  linear : Matrix3
  translation : Vector3
deriving DecidableEq

namespace RigidTransformation

/-- Value of `RigidTransformation<ScalarT,3>::Identity()`. -/
def Identity : RigidTransformation := ⟨Matrix3.identity, Vector3.zero⟩

/-- Transform applied to a point (`tform * p`): linear block, then translation. -/
def apply (t : RigidTransformation) (p : Vector3) : Vector3 :=
  (t.linear.mulVec p).add t.translation

/-- Eigen `inverse()` of an isometry transform: the transposed linear block and
the translation mapped by its negative. -/
def inverse (t : RigidTransformation) : RigidTransformation :=
  ⟨t.linear.transpose, (t.linear.transpose.mulVec t.translation).neg⟩

/-- Product `a * b` of two isometry transforms: `b` is applied first. -/
def compose (a b : RigidTransformation) : RigidTransformation :=
  ⟨a.linear.mul b.linear, (a.linear.mulVec b.translation).add a.translation⟩

end RigidTransformation

/-- Scalar returned by `std::sqrt`, kept as the radicand it was computed from:
it stands for the non-negative real number whose square is the radicand. -/
structure SqrtValue where
  radicand : ℚ
deriving DecidableEq

/-- The real number a `SqrtValue` stands for. -/
noncomputable def SqrtValue.toReal (v : SqrtValue) : ℝ := Real.sqrt (v.radicand : ℝ)

/-! ## Pixel rounding -/

/-- Rounding `std::llround`: to the nearest integer, halfway cases away from
zero. -/
def llround (q : ℚ) : ℤ :=
  if 0 ≤ q then ⌊q + 1 / 2⌋ else -⌊-q + 1 / 2⌋

/-- Cast `(size_t)` of a signed integer on a 64-bit target: reduction modulo
`2 ^ 64`. -/
def toSizeT (z : ℤ) : ℕ := (z % 2 ^ 64).toNat

/-- Value `std::numeric_limits<size_t>::max()`, the mark of an empty cell. -/
def empty : ℕ := 2 ^ 64 - 1

/-- Pixel column computed at line 140 of the search for the camera-frame point
`p`. -/
def pixelX (K : Matrix3) (p : Vector3) : ℕ :=
  toSizeT (llround (p.x * K.m00 / p.z + K.m02))

/-- Pixel row computed at line 141 of the search for the camera-frame point
`p`. -/
def pixelY (K : Matrix3) (p : Vector3) : ℕ :=
  toSizeT (llround (p.y * K.m11 / p.z + K.m12))

/-! ## Correspondences and the index map -/

/-- Record `Correspondence<CorrespondenceScalar>`. -/
structure Correspondence where
  indexInFirst : ℕ
  indexInSecond : ℕ
  value : ℚ
deriving DecidableEq

/-- Dense matrix `Eigen::Matrix<size_t,Dynamic,Dynamic>` in column-major
storage: coefficient `(x, y)` is `data[x + y * rows]`. -/
structure IndexMap where
  rows : ℕ
  cols : ℕ
  data : List ℕ
deriving DecidableEq

namespace IndexMap

/-- Matrix after `resize(0,0)`, also the default-constructed matrix. -/
def cleared : IndexMap := ⟨0, 0, []⟩

/-- Coefficient access `index_map_(x,y)`. The source only reads inside the
matrix; a read outside the stored data yields the empty mark in the model. -/
def coeff (m : IndexMap) (x y : ℕ) : ℕ := m.data.getD (x + y * m.rows) empty

end IndexMap

/-- Camera-frame position of destination point `i` under the extrinsic
transform: the point mapped by the inverse of the transform. -/
def dstCam (points : List Vector3) (extrinsics : RigidTransformation) (i : ℕ) : Vector3 :=
  extrinsics.inverse.apply (points.getD i Vector3.zero)

/-- Modelled from the spec: one step of the rebuild loop of `pointsToIndexMap`
(see there), the write of destination index `i` into the cell of its pixel. -/
def indexMapWrite (points : List Vector3) (extrinsics : RigidTransformation)
    (intrinsics : Matrix3) (image_w image_h : ℕ) (data : List ℕ) (i : ℕ) : List ℕ :=
  if (dstCam points extrinsics i).z ≤ 0 then data
  else if image_w ≤ pixelX intrinsics (dstCam points extrinsics i) ∨
      image_h ≤ pixelY intrinsics (dstCam points extrinsics i) then data
  else data.set (pixelX intrinsics (dstCam points extrinsics i)
    + pixelY intrinsics (dstCam points extrinsics i) * image_w) i

/-- Modelled from the spec: `pointsToIndexMap` of
`cilantro/image_point_cloud_conversions.hpp`, which is not part of the sources
at hand. Section 4.1 of the specification: the map is rebuilt "by projecting
every destination point into pixel space under the configured
intrinsics/extrinsics and writing its index into the corresponding cell (last
writer wins on collision), leaving all other cells empty". The projection is
the one the specification spells out for a point of the search: camera frame
through the inverse of the extrinsic transform, no pixel for a depth `≤ 0`
(section 8 asks that no correspondence derives from such a destination point),
perspective division, rounding, no cell outside `[0,width) × [0,height)`. -/
def pointsToIndexMap (points : List Vector3) (extrinsics : RigidTransformation)
    (intrinsics : Matrix3) (image_w image_h : ℕ) : List ℕ :=
  (List.range points.length).foldl
    (indexMapWrite points extrinsics intrinsics image_w image_h)
    (List.replicate (image_w * image_h) empty)

/-- Modelled from the spec: `filterCorrespondencesFraction` of
`cilantro/correspondence.hpp`, which is not part of the sources at hand.
Section 4.1 of the specification: "sort or partition by cost and keep only the
lowest-cost `floor(inlier_fraction × kept_count)` entries, discarding the
rest", for a fraction in `(0,1]` where `1.0` means "no trimming". -/
def filterCorrespondencesFraction (correspondences : List Correspondence)
    (fraction_to_keep : ℚ) : List Correspondence :=
  if 1 ≤ fraction_to_keep then correspondences
  else
    (correspondences.insertionSort (fun a b => a.value ≤ b.value)).take
      ⌊fraction_to_keep * correspondences.length⌋.toNat

/-! ## The combined-metric rigid ICP variant -/

/-- Collaborator `estimateRigidTransformCombinedMetric3D` of
`cilantro/rigid_registration_utilities.hpp`: from destination points,
destination normals, transformed source points, correspondences, the two
weights, the iteration cap and the tolerance to the incremental transform it
writes to its output argument. -/
abbrev Estimator :=
  List Vector3 → List Vector3 → List Vector3 → List Correspondence → ℚ → ℚ → ℕ → ℚ →
    RigidTransformation

/-- Collaborator `KDTree::nearestNeighborSearch` on the tree built from a list
of points: the index `nn.index` found for a query point. -/
abbrev NearestNeighborSearch := List Vector3 → Vector3 → ℕ

/-- Member `rotation()` of the transform type, the rotation block extracted
from a transform. -/
abbrev RotationExtraction := RigidTransformation → Matrix3

/-- The search of the spatial index is exact: on a non-empty list of points it
returns the index of a point at least as close to the query as every other
point of the list. -/
def IsExactNearest (search : NearestNeighborSearch) : Prop :=
  ∀ (points : List Vector3) (q : Vector3), points ≠ [] →
    search points q < points.length ∧
      ∀ j, j < points.length →
        ((points.getD (search points q) Vector3.zero).sub q).squaredNorm ≤
          ((points.getD j Vector3.zero).sub q).squaredNorm

/-- The rotation extraction leaves the linear block of a transform as it is
when that block is orthonormal. -/
def KeepsOrthonormal (rotation : RotationExtraction) : Prop :=
  ∀ t : RigidTransformation, t.linear.IsOrthonormal → rotation t = t.linear

/-- Modelled from the spec: the exact nearest-neighbour search of the spatial
index (`cilantro/kd_tree.hpp`, not part of the sources at hand), section 6 of
the specification: "`nearestNeighbor(query point) → (index, distance)`, exact
(not approximate)". This is the scan over the first `n` points that keeps the
first index of least squared distance. -/
def nearestBelow (points : List Vector3) (q : Vector3) : ℕ → ℕ
  | 0 => 0
  | n + 1 =>
    if ((points.getD n Vector3.zero).sub q).squaredNorm <
        ((points.getD (nearestBelow points q n) Vector3.zero).sub q).squaredNorm then n
    else nearestBelow points q n

/-- Modelled from the spec: the exact nearest-neighbour search over all points
(see `nearestBelow`). -/
def exactNearestNeighborSearch : NearestNeighborSearch :=
  fun points q => nearestBelow points q points.length

/-- Data members of `CombinedMetricRigidICP3`: the three members of the base
class `IterativeClosestPointBase` that the two hooks use (`transform_`,
`correspondences_`, `last_delta_norm_`), then the members of the class itself. -/
structure CombinedMetricRigidICP3 where
  transform_ : RigidTransformation
  correspondences_ : List Correspondence
  last_delta_norm_ : SqrtValue
  dst_points_ : List Vector3
  dst_normals_ : List Vector3
  src_points_ : List Vector3
  src_points_trans_ : List Vector3
  max_optimization_iterations_ : ℕ
  optimization_convergence_tol_ : ℚ
  point_to_point_weight_ : ℚ
  point_to_plane_weight_ : ℚ
deriving DecidableEq

namespace CombinedMetricRigidICP3

/-- Setter of lines 29-32. -/
def setPointToPointMetricWeight (s : CombinedMetricRigidICP3) (weight : ℚ) :
    CombinedMetricRigidICP3 :=
  { s with point_to_point_weight_ := weight }

/-- Setter of lines 36-39. -/
def setPointToPlaneMetricWeight (s : CombinedMetricRigidICP3) (weight : ℚ) :
    CombinedMetricRigidICP3 :=
  { s with point_to_plane_weight_ := weight }

/-- Setter of lines 43-46. -/
def setMaxNumberOfOptimizationStepIterations (s : CombinedMetricRigidICP3) (max_iter : ℕ) :
    CombinedMetricRigidICP3 :=
  { s with max_optimization_iterations_ := max_iter }

/-- Setter of lines 50-53. -/
def setOptimizationStepConvergenceTolerance (s : CombinedMetricRigidICP3) (conv_tol : ℚ) :
    CombinedMetricRigidICP3 :=
  { s with optimization_convergence_tol_ := conv_tol }

/-- The incremental transform `tform_iter` of line 74: the estimator called on
the destination points and normals, the source points mapped by the running
transform (the buffer filled at lines 68-71), the correspondences, the two
weights, the iteration cap and the tolerance. -/
def increment (estimator : Estimator) (s : CombinedMetricRigidICP3) : RigidTransformation :=
  estimator s.dst_points_ s.dst_normals_ (s.src_points_.map s.transform_.apply)
    s.correspondences_ s.point_to_point_weight_ s.point_to_plane_weight_
    s.max_optimization_iterations_ s.optimization_convergence_tol_

/-- Member `updateEstimate` (lines 67-79): the object after the call. -/
def updateEstimate (estimator : Estimator) (rotation : RotationExtraction)
    (s : CombinedMetricRigidICP3) : CombinedMetricRigidICP3 :=
  let src_points_trans := s.src_points_.map s.transform_.apply
  let tform_iter :=
    estimator s.dst_points_ s.dst_normals_ src_points_trans s.correspondences_
      s.point_to_point_weight_ s.point_to_plane_weight_ s.max_optimization_iterations_
      s.optimization_convergence_tol_
  let product := tform_iter.compose s.transform_
  { s with
    src_points_trans_ := src_points_trans
    transform_ := ⟨rotation product, product.translation⟩
    last_delta_norm_ :=
      ⟨(tform_iter.linear.sub Matrix3.identity).squaredNorm + tform_iter.translation.squaredNorm⟩ }

/-- Entry `res[i]` of the residual vector (lines 92-95). -/
def residualAt (search : NearestNeighborSearch) (s : CombinedMetricRigidICP3) (i : ℕ) : ℚ :=
  let src_p_trans := s.transform_.apply (s.src_points_.getD i Vector3.zero)
  let index := search s.dst_points_ src_p_trans
  let point_to_plane_dist :=
    (s.dst_normals_.getD index Vector3.zero).dot
      ((s.dst_points_.getD index Vector3.zero).sub src_p_trans)
  s.point_to_point_weight_ *
      ((s.dst_points_.getD index Vector3.zero).sub src_p_trans).squaredNorm +
    s.point_to_plane_weight_ * point_to_plane_dist * point_to_plane_dist

/-- Member `computeResiduals` (lines 82-98): the object after the call and the
returned vector. The body assigns to no data member, so the object is returned
as it was. -/
def computeResiduals (search : NearestNeighborSearch) (s : CombinedMetricRigidICP3) :
    CombinedMetricRigidICP3 × List (Option ℚ) :=
  if s.dst_points_.length = 0 then (s, List.replicate s.src_points_.length none)
  else (s, (List.range s.src_points_.length).map (fun i => some (residualAt search s i)))

/-- The object after `n` calls of `computeResiduals` in a row. -/
def afterResidualCalls (search : NearestNeighborSearch) (s : CombinedMetricRigidICP3) :
    ℕ → CombinedMetricRigidICP3
  | 0 => s
  | n + 1 => (computeResiduals search (afterResidualCalls search s n)).1

/-! ### Concrete objects for the examples -/

/-- Rotation extraction that returns the linear block as it is. -/
def linearBlock : RotationExtraction := fun t => t.linear

/-- Quarter turn about the third axis followed by a unit step along the first. -/
def quarterTurn : RigidTransformation := ⟨⟨0, -1, 0, 1, 0, 0, 0, 0, 1⟩, ⟨1, 0, 0⟩⟩

/-- Estimator that returns the identity for an empty correspondence set and
`quarterTurn` otherwise. -/
def turningEstimator : Estimator :=
  fun _ _ _ correspondences _ _ _ _ =>
    if correspondences = [] then RigidTransformation.Identity else quarterTurn

/-- ICP object with two destination points, two source points, one
correspondence, the default weights and a running transform that shifts by one
along the second axis. -/
def sampleICP : CombinedMetricRigidICP3 where
  transform_ := ⟨Matrix3.identity, ⟨0, 1, 0⟩⟩
  correspondences_ := [⟨0, 0, 0⟩]
  last_delta_norm_ := ⟨1⟩
  dst_points_ := [⟨0, 1, 0⟩, ⟨3, 1, 1⟩]
  dst_normals_ := [⟨0, 0, 1⟩, ⟨0, 0, 1⟩]
  src_points_ := [⟨0, 0, 1⟩, ⟨2, 0, 0⟩]
  src_points_trans_ := [⟨0, 0, 0⟩, ⟨0, 0, 0⟩]
  max_optimization_iterations_ := 1
  optimization_convergence_tol_ := 1 / 100000
  point_to_point_weight_ := 1 / 10
  point_to_plane_weight_ := 1

/-- The object `sampleICP` with no destination point. -/
def sampleICPNoDestination : CombinedMetricRigidICP3 :=
  { sampleICP with dst_points_ := [], dst_normals_ := [] }

/-- The object `sampleICP` with no correspondence. -/
def sampleICPNoCorrespondence : CombinedMetricRigidICP3 :=
  { sampleICP with correspondences_ := [] }

end CombinedMetricRigidICP3

/-! ## The search object -/

/-- Data members of `ICPCorrespondenceSearchProjective3` that the object owns. -/
structure ICPCorrespondenceSearchProjective3 where
  index_map_ : IndexMap
  projection_intrinsics_ : Matrix3
  projection_image_width_ : ℕ
  projection_image_height_ : ℕ
  projection_extrinsics_ : RigidTransformation
  projection_extrinsics_inv_ : RigidTransformation
  max_distance_ : ℚ
  inlier_fraction_ : ℚ
deriving DecidableEq

/-- Scoring capability `EvaluatorT::operator()(dst index, src index, squared
distance)`. -/
abbrev Evaluator := ℕ → ℕ → ℚ → ℚ

/-- Default evaluator `CorrespondenceDistanceEvaluator`: the distance itself. -/
def CorrespondenceDistanceEvaluator : Evaluator := fun _ _ dist => dist

namespace ICPCorrespondenceSearchProjective3

/-- Constructor (lines 17-28). -/
def new : ICPCorrespondenceSearchProjective3 where
  index_map_ := IndexMap.cleared
  projection_intrinsics_ := ⟨528, 0, 320, 0, 528, 240, 0, 0, 1⟩
  projection_image_width_ := 640
  projection_image_height_ := 480
  projection_extrinsics_ := RigidTransformation.Identity
  projection_extrinsics_inv_ := RigidTransformation.Identity
  max_distance_ := (1 / 100) * (1 / 100)
  inlier_fraction_ := 1

/-- Getter of line 54. -/
def getProjectionIntrinsicMatrix (s : ICPCorrespondenceSearchProjective3) : Matrix3 :=
  s.projection_intrinsics_

/-- Getter of line 62. -/
def getProjectionImageWidth (s : ICPCorrespondenceSearchProjective3) : ℕ :=
  s.projection_image_width_

/-- Getter of line 70. -/
def getProjectionImageHeight (s : ICPCorrespondenceSearchProjective3) : ℕ :=
  s.projection_image_height_

/-- Getter of lines 78-80. -/
def getProjectionExtrinsicMatrix (s : ICPCorrespondenceSearchProjective3) :
    RigidTransformation :=
  s.projection_extrinsics_

/-- Getter of line 89. -/
def getMaxDistance (s : ICPCorrespondenceSearchProjective3) : ℚ := s.max_distance_

/-- Getter of line 96. -/
def getInlierFraction (s : ICPCorrespondenceSearchProjective3) : ℚ := s.inlier_fraction_

/-- Setter of lines 56-60. -/
def setProjectionIntrinsicMatrix (s : ICPCorrespondenceSearchProjective3) (mat : Matrix3) :
    ICPCorrespondenceSearchProjective3 :=
  { s with projection_intrinsics_ := mat, index_map_ := IndexMap.cleared }

/-- Setter of lines 64-68. -/
def setProjectionImageWidth (s : ICPCorrespondenceSearchProjective3) (w : ℕ) :
    ICPCorrespondenceSearchProjective3 :=
  { s with projection_image_width_ := w, index_map_ := IndexMap.cleared }

/-- Setter of lines 72-76. -/
def setProjectionImageHeight (s : ICPCorrespondenceSearchProjective3) (h : ℕ) :
    ICPCorrespondenceSearchProjective3 :=
  { s with projection_image_height_ := h, index_map_ := IndexMap.cleared }

/-- Setter of lines 82-87. -/
def setProjectionExtrinsicMatrix (s : ICPCorrespondenceSearchProjective3)
    (mat : RigidTransformation) : ICPCorrespondenceSearchProjective3 :=
  { s with
    projection_extrinsics_ := mat
    projection_extrinsics_inv_ := mat.inverse
    index_map_ := IndexMap.cleared }

/-- Setter of lines 91-94. -/
def setMaxDistance (s : ICPCorrespondenceSearchProjective3) (dist_thresh : ℚ) :
    ICPCorrespondenceSearchProjective3 :=
  { s with max_distance_ := dist_thresh }

/-- Setter of lines 98-101. -/
def setInlierFraction (s : ICPCorrespondenceSearchProjective3) (fraction : ℚ) :
    ICPCorrespondenceSearchProjective3 :=
  { s with inlier_fraction_ := fraction }

/-- Lines 123-124: the index map resized to the configured image size and
filled by `pointsToIndexMap` from the destination points. -/
def rebuiltIndexMap (s : ICPCorrespondenceSearchProjective3) (dst_points : List Vector3) :
    IndexMap :=
  ⟨s.projection_image_width_, s.projection_image_height_,
    pointsToIndexMap dst_points s.projection_extrinsics_ s.projection_intrinsics_
      s.projection_image_width_ s.projection_image_height_⟩

/-- Lines 122-125: the index map is rebuilt exactly when its dimensions differ
from the configured image size. -/
def refreshIndexMap (s : ICPCorrespondenceSearchProjective3) (dst_points : List Vector3) :
    ICPCorrespondenceSearchProjective3 :=
  if s.index_map_.rows ≠ s.projection_image_width_ ∨
      s.index_map_.cols ≠ s.projection_image_height_ then
    { s with index_map_ := s.rebuiltIndexMap dst_points }
  else s

/-- Content of `corr_tmp[i]` after the two loops of lines 132-148. A slot the
second loop leaves alone keeps the value `max_distance_ + 1` of the first; its
two indices, which the source does not set, are `0` in the model. -/
def corrSlot (s : ICPCorrespondenceSearchProjective3) (dst_points : List Vector3)
    (evaluator : Evaluator) (src_points_trans : List Vector3) (i : ℕ) : Correspondence :=
  let value_to_reject := s.max_distance_ + 1
  let src_pt := src_points_trans.getD i Vector3.zero
  let src_pt_trans_cam := s.projection_extrinsics_inv_.apply src_pt
  if src_pt_trans_cam.z ≤ 0 then ⟨0, 0, value_to_reject⟩
  else
    let x := pixelX s.projection_intrinsics_ src_pt_trans_cam
    let y := pixelY s.projection_intrinsics_ src_pt_trans_cam
    if s.projection_image_width_ ≤ x ∨ s.projection_image_height_ ≤ y then
      ⟨0, 0, value_to_reject⟩
    else
      let ind := s.index_map_.coeff x y
      if ind = empty then ⟨0, 0, value_to_reject⟩
      else
        ⟨ind, i, evaluator ind i ((src_pt.sub (dst_points.getD ind Vector3.zero)).squaredNorm)⟩

/-- Lines 130-155: the slots of all source points, then the sequential pass
that keeps the slots whose value is below `max_distance_`, in slot order. -/
def compactedCorrespondences (s : ICPCorrespondenceSearchProjective3)
    (dst_points : List Vector3) (evaluator : Evaluator) (src_points_trans : List Vector3) :
    List Correspondence :=
  ((List.range src_points_trans.length).map
      (corrSlot s dst_points evaluator src_points_trans)).filter
    (fun c => c.value < s.max_distance_)

/-- Private member `find_correspondences_` (lines 119-158): the object after
the call and the correspondence set written to the output argument. -/
def find_correspondences_ (s : ICPCorrespondenceSearchProjective3) (dst_points : List Vector3)
    (evaluator : Evaluator) (src_points_trans : List Vector3) :
    ICPCorrespondenceSearchProjective3 × List Correspondence :=
  let s1 := s.refreshIndexMap dst_points
  (s1, filterCorrespondencesFraction
    (s1.compactedCorrespondences dst_points evaluator src_points_trans) s1.inlier_fraction_)

/-- Member `findCorrespondences(correspondences)` (lines 43-46): the search on
the source positions as the adaptor holds them. -/
def findCorrespondences (s : ICPCorrespondenceSearchProjective3) (dst_points : List Vector3)
    (evaluator : Evaluator) (src_points : List Vector3) :
    ICPCorrespondenceSearchProjective3 × List Correspondence :=
  s.find_correspondences_ dst_points evaluator src_points

/-- Member `findCorrespondences(tform, correspondences)` (lines 30-34): the
search on the source positions mapped by `tform`. -/
def findCorrespondencesTransformed (s : ICPCorrespondenceSearchProjective3)
    (dst_points : List Vector3) (evaluator : Evaluator) (src_points : List Vector3)
    (tform : RigidTransformation) : ICPCorrespondenceSearchProjective3 × List Correspondence :=
  s.find_correspondences_ dst_points evaluator (src_points.map tform.apply)

/-! ## Reading the search -/

/-- Camera-frame point of source index `i` (line 138). -/
def srcCam (s : ICPCorrespondenceSearchProjective3) (src_points_trans : List Vector3) (i : ℕ) :
    Vector3 :=
  s.projection_extrinsics_inv_.apply (src_points_trans.getD i Vector3.zero)

/-- Index-map cell read for source index `i` (line 143). -/
def srcCell (s : ICPCorrespondenceSearchProjective3) (src_points_trans : List Vector3) (i : ℕ) :
    ℕ :=
  s.index_map_.coeff (pixelX s.projection_intrinsics_ (srcCam s src_points_trans i))
    (pixelY s.projection_intrinsics_ (srcCam s src_points_trans i))

/-- Value the evaluator returns for source index `i` paired with destination
index `ind` (line 147). -/
def pairValue (dst_points : List Vector3) (evaluator : Evaluator)
    (src_points_trans : List Vector3) (ind i : ℕ) : ℚ :=
  evaluator ind i
    (((src_points_trans.getD i Vector3.zero).sub (dst_points.getD ind Vector3.zero)).squaredNorm)

/-- The loop body of lines 137-148 passes its three `continue` guards for
source index `i`. -/
def PassesGuards (s : ICPCorrespondenceSearchProjective3) (src_points_trans : List Vector3)
    (i : ℕ) : Prop :=
  0 < (srcCam s src_points_trans i).z ∧
    pixelX s.projection_intrinsics_ (srcCam s src_points_trans i) < s.projection_image_width_ ∧
    pixelY s.projection_intrinsics_ (srcCam s src_points_trans i) < s.projection_image_height_ ∧
    srcCell s src_points_trans i ≠ empty

/-- The index map the search works with is the one `pointsToIndexMap` gives
for the destination points and configuration in effect: it is rebuilt in this
call, or it is already that map. -/
def IndexMapFresh (s : ICPCorrespondenceSearchProjective3) (dst_points : List Vector3) : Prop :=
  (s.refreshIndexMap dst_points).index_map_ = s.rebuiltIndexMap dst_points

/-- Squared Euclidean distance between destination point `c.indexInFirst` and
transformed source point `c.indexInSecond`. -/
def squaredDistance (dst_points src_points_trans : List Vector3) (c : Correspondence) : ℚ :=
  ((src_points_trans.getD c.indexInSecond Vector3.zero).sub
    (dst_points.getD c.indexInFirst Vector3.zero)).squaredNorm

/-- Division that is defined only for a strictly positive divisor. -/
def divPositive (a b : ℚ) : Option ℚ := if 0 < b then some (a / b) else none

/-- The loop body of lines 137-148 with the two divisions of lines 140-141
made explicit: the result is `none` when a division is evaluated with a divisor
that is not strictly positive, and the content of `corr_tmp[i]` otherwise. -/
def corrSlotChecked (s : ICPCorrespondenceSearchProjective3) (dst_points : List Vector3)
    (evaluator : Evaluator) (src_points_trans : List Vector3) (i : ℕ) : Option Correspondence :=
  let value_to_reject := s.max_distance_ + 1
  let src_pt := src_points_trans.getD i Vector3.zero
  let src_pt_trans_cam := s.projection_extrinsics_inv_.apply src_pt
  if src_pt_trans_cam.z ≤ 0 then some ⟨0, 0, value_to_reject⟩
  else
    (divPositive (src_pt_trans_cam.x * s.projection_intrinsics_.m00) src_pt_trans_cam.z).bind
      fun qx =>
    (divPositive (src_pt_trans_cam.y * s.projection_intrinsics_.m11) src_pt_trans_cam.z).bind
      fun qy =>
        let x := toSizeT (llround (qx + s.projection_intrinsics_.m02))
        let y := toSizeT (llround (qy + s.projection_intrinsics_.m12))
        if s.projection_image_width_ ≤ x ∨ s.projection_image_height_ ≤ y then
          some ⟨0, 0, value_to_reject⟩
        else
          let ind := s.index_map_.coeff x y
          if ind = empty then some ⟨0, 0, value_to_reject⟩
          else
            some ⟨ind, i,
              evaluator ind i ((src_pt.sub (dst_points.getD ind Vector3.zero)).squaredNorm)⟩

/-- A call of one of the four setters of the projection geometry. -/
inductive ProjectionSetterCall where
  | intrinsicMatrix (mat : Matrix3)
  | imageWidth (w : ℕ)
  | imageHeight (h : ℕ)
  | extrinsicMatrix (mat : RigidTransformation)

/-- The object after the setter call. -/
def ProjectionSetterCall.run (s : ICPCorrespondenceSearchProjective3) :
    ProjectionSetterCall → ICPCorrespondenceSearchProjective3
  | .intrinsicMatrix mat => s.setProjectionIntrinsicMatrix mat
  | .imageWidth w => s.setProjectionImageWidth w
  | .imageHeight h => s.setProjectionImageHeight h
  | .extrinsicMatrix mat => s.setProjectionExtrinsicMatrix mat

/-- A newly constructed search object given a whole configuration through its
setters. -/
def configured (intrinsics : Matrix3) (w h : ℕ) (extrinsics : RigidTransformation)
    (dist_thresh fraction : ℚ) : ICPCorrespondenceSearchProjective3 :=
  (((((new.setProjectionIntrinsicMatrix intrinsics).setProjectionImageWidth w).setProjectionImageHeight
    h).setProjectionExtrinsicMatrix extrinsics).setMaxDistance dist_thresh).setInlierFraction fraction

/-- States of the search object: the constructed object and what the public
members make of a state, the clouds and the evaluator of a search being
arbitrary. -/
inductive Reachable : ICPCorrespondenceSearchProjective3 → Prop where
  | new : Reachable new
  | setProjectionIntrinsicMatrix {s : ICPCorrespondenceSearchProjective3} (mat : Matrix3) :
      Reachable s → Reachable (s.setProjectionIntrinsicMatrix mat)
  | setProjectionImageWidth {s : ICPCorrespondenceSearchProjective3} (w : ℕ) :
      Reachable s → Reachable (s.setProjectionImageWidth w)
  | setProjectionImageHeight {s : ICPCorrespondenceSearchProjective3} (h : ℕ) :
      Reachable s → Reachable (s.setProjectionImageHeight h)
  | setProjectionExtrinsicMatrix {s : ICPCorrespondenceSearchProjective3}
      (mat : RigidTransformation) :
      Reachable s → Reachable (s.setProjectionExtrinsicMatrix mat)
  | setMaxDistance {s : ICPCorrespondenceSearchProjective3} (dist_thresh : ℚ) :
      Reachable s → Reachable (s.setMaxDistance dist_thresh)
  | setInlierFraction {s : ICPCorrespondenceSearchProjective3} (fraction : ℚ) :
      Reachable s → Reachable (s.setInlierFraction fraction)
  | findCorrespondences {s : ICPCorrespondenceSearchProjective3} (dst_points : List Vector3)
      (evaluator : Evaluator) (src_points : List Vector3) :
      Reachable s → Reachable (s.findCorrespondences dst_points evaluator src_points).1
  | findCorrespondencesTransformed {s : ICPCorrespondenceSearchProjective3}
      (dst_points : List Vector3) (evaluator : Evaluator) (src_points : List Vector3)
      (tform : RigidTransformation) :
      Reachable s →
        Reachable (s.findCorrespondencesTransformed dst_points evaluator src_points tform).1

/-! ## Concrete objects for the examples

A camera with a four by four image, unit focal lengths and principal point
`(1, 1)`: the point `(0, 0, z)` with `z > 0` projects to the pixel `(1, 1)`. -/

/-- Intrinsic matrix of the small camera. -/
def smallIntrinsics : Matrix3 := ⟨1, 0, 1, 0, 1, 1, 0, 0, 1⟩

/-- Search object built by the constructor and set to the small camera. -/
def smallSearch : ICPCorrespondenceSearchProjective3 :=
  ((new.setProjectionImageWidth 4).setProjectionImageHeight 4).setProjectionIntrinsicMatrix
    smallIntrinsics

/-- Two points on the optical axis and one off the axis. -/
def smallCloud : List Vector3 := [⟨0, 0, 1⟩, ⟨1, 1, 1⟩, ⟨0, 0, 1001 / 1000⟩]

/-- The small search after a first search on a destination cloud of the single
point `(0, 0, 1)`: its index map holds index 0 in the cell `(1, 1)`. -/
def searchedOnce : ICPCorrespondenceSearchProjective3 :=
  (smallSearch.findCorrespondences [⟨0, 0, 1⟩] CorrespondenceDistanceEvaluator [⟨0, 0, 1⟩]).1

/-- Source cloud with a point in front of the camera, one at depth zero and one
behind it. -/
def cloudBehind : List Vector3 := [⟨0, 0, 1⟩, ⟨0, 0, 0⟩, ⟨0, 0, -1⟩]

/-- Cloud of two points that project to two different pixels of the small
camera. -/
def twoPoints : List Vector3 := [⟨0, 0, 1⟩, ⟨1, 1, 1⟩]

/-! ## Slots and compaction -/

@[simp] theorem refreshIndexMap_intrinsics (s : ICPCorrespondenceSearchProjective3)
    (dst : List Vector3) :
    (s.refreshIndexMap dst).projection_intrinsics_ = s.projection_intrinsics_ := by
  unfold refreshIndexMap; split_ifs <;> rfl

@[simp] theorem refreshIndexMap_width (s : ICPCorrespondenceSearchProjective3)
    (dst : List Vector3) :
    (s.refreshIndexMap dst).projection_image_width_ = s.projection_image_width_ := by
  unfold refreshIndexMap; split_ifs <;> rfl

@[simp] theorem refreshIndexMap_height (s : ICPCorrespondenceSearchProjective3)
    (dst : List Vector3) :
    (s.refreshIndexMap dst).projection_image_height_ = s.projection_image_height_ := by
  unfold refreshIndexMap; split_ifs <;> rfl

@[simp] theorem refreshIndexMap_extrinsics (s : ICPCorrespondenceSearchProjective3)
    (dst : List Vector3) :
    (s.refreshIndexMap dst).projection_extrinsics_ = s.projection_extrinsics_ := by
  unfold refreshIndexMap; split_ifs <;> rfl

@[simp] theorem refreshIndexMap_extrinsics_inv (s : ICPCorrespondenceSearchProjective3)
    (dst : List Vector3) :
    (s.refreshIndexMap dst).projection_extrinsics_inv_ = s.projection_extrinsics_inv_ := by
  unfold refreshIndexMap; split_ifs <;> rfl

@[simp] theorem refreshIndexMap_max_distance (s : ICPCorrespondenceSearchProjective3)
    (dst : List Vector3) :
    (s.refreshIndexMap dst).max_distance_ = s.max_distance_ := by
  unfold refreshIndexMap; split_ifs <;> rfl

@[simp] theorem refreshIndexMap_inlier_fraction (s : ICPCorrespondenceSearchProjective3)
    (dst : List Vector3) :
    (s.refreshIndexMap dst).inlier_fraction_ = s.inlier_fraction_ := by
  unfold refreshIndexMap; split_ifs <;> rfl

theorem findCorrespondences_snd (s : ICPCorrespondenceSearchProjective3) (dst : List Vector3)
    (ev : Evaluator) (src : List Vector3) :
    (s.findCorrespondences dst ev src).2 =
      filterCorrespondencesFraction ((s.refreshIndexMap dst).compactedCorrespondences dst ev src)
        s.inlier_fraction_ := by
  simp [findCorrespondences, find_correspondences_]

theorem findCorrespondences_fst (s : ICPCorrespondenceSearchProjective3) (dst : List Vector3)
    (ev : Evaluator) (src : List Vector3) :
    (s.findCorrespondences dst ev src).1 = s.refreshIndexMap dst := by
  simp [findCorrespondences, find_correspondences_]

theorem corrSlot_of_passes (s : ICPCorrespondenceSearchProjective3) (dst : List Vector3)
    (ev : Evaluator) (src : List Vector3) (i : ℕ) (h : PassesGuards s src i) :
    corrSlot s dst ev src i = ⟨srcCell s src i, i, pairValue dst ev src (srcCell s src i) i⟩ := by
  obtain ⟨hz, hx, hy, hc⟩ := h
  simp only [srcCam, srcCell] at hz hx hy hc
  simp only [corrSlot, srcCell, srcCam, pairValue]
  rw [if_neg (not_le.mpr hz), if_neg (by push_neg; exact ⟨hx, hy⟩), if_neg hc]

theorem corrSlot_of_not_passes (s : ICPCorrespondenceSearchProjective3) (dst : List Vector3)
    (ev : Evaluator) (src : List Vector3) (i : ℕ) (h : ¬ PassesGuards s src i) :
    corrSlot s dst ev src i = ⟨0, 0, s.max_distance_ + 1⟩ := by
  simp only [PassesGuards, srcCam, srcCell] at h
  simp only [corrSlot]
  split_ifs with h1 h2 h3
  · rfl
  · rfl
  · rfl
  · exact absurd ⟨not_le.mp h1, by push_neg at h2; exact h2.1, by push_neg at h2; exact h2.2, h3⟩ h

theorem corrSlot_value_lt_iff (s : ICPCorrespondenceSearchProjective3) (dst : List Vector3)
    (ev : Evaluator) (src : List Vector3) (i : ℕ) :
    (corrSlot s dst ev src i).value < s.max_distance_ ↔
      PassesGuards s src i ∧ pairValue dst ev src (srcCell s src i) i < s.max_distance_ := by
  by_cases h : PassesGuards s src i
  · rw [corrSlot_of_passes s dst ev src i h]
    simp [h]
  · rw [corrSlot_of_not_passes s dst ev src i h]
    simp [h]

theorem mem_compactedCorrespondences (s : ICPCorrespondenceSearchProjective3)
    (dst : List Vector3) (ev : Evaluator) (src : List Vector3) (c : Correspondence) :
    c ∈ s.compactedCorrespondences dst ev src ↔
      ∃ i, i < src.length ∧ PassesGuards s src i ∧
        pairValue dst ev src (srcCell s src i) i < s.max_distance_ ∧
        c = ⟨srcCell s src i, i, pairValue dst ev src (srcCell s src i) i⟩ := by
  simp only [compactedCorrespondences, List.mem_filter, List.mem_map, List.mem_range,
    decide_eq_true_eq]
  constructor
  · rintro ⟨⟨i, hi, rfl⟩, hv⟩
    obtain ⟨hp, hlt⟩ := (corrSlot_value_lt_iff s dst ev src i).mp hv
    exact ⟨i, hi, hp, hlt, corrSlot_of_passes s dst ev src i hp⟩
  · rintro ⟨i, hi, hp, hlt, rfl⟩
    refine ⟨⟨i, hi, corrSlot_of_passes s dst ev src i hp⟩, hlt⟩

theorem filterCorrespondencesFraction_one (cs : List Correspondence) (f : ℚ) (hf : 1 ≤ f) :
    filterCorrespondencesFraction cs f = cs := by
  simp [filterCorrespondencesFraction, hf]

theorem mem_of_mem_filterCorrespondencesFraction (cs : List Correspondence) (f : ℚ)
    (c : Correspondence) (h : c ∈ filterCorrespondencesFraction cs f) : c ∈ cs := by
  unfold filterCorrespondencesFraction at h
  split_ifs at h with hf
  · exact h
  · exact (List.perm_insertionSort _ cs).mem_iff.mp (List.mem_of_mem_take h)

theorem mem_findCorrespondences_sub (s : ICPCorrespondenceSearchProjective3)
    (dst : List Vector3) (ev : Evaluator) (src : List Vector3) (c : Correspondence)
    (h : c ∈ (s.findCorrespondences dst ev src).2) :
    c ∈ (s.refreshIndexMap dst).compactedCorrespondences dst ev src := by
  rw [findCorrespondences_snd] at h
  exact mem_of_mem_filterCorrespondencesFraction _ _ _ h

/-! ### The depth guard -/

theorem corrSlotChecked_eq (s : ICPCorrespondenceSearchProjective3) (dst : List Vector3)
    (ev : Evaluator) (src : List Vector3) (i : ℕ) :
    corrSlotChecked s dst ev src i = some (corrSlot s dst ev src i) := by
  simp only [corrSlotChecked, corrSlot, pixelX, pixelY, divPositive]
  by_cases hz : (s.projection_extrinsics_inv_.apply (src.getD i Vector3.zero)).z ≤ 0
  · rw [if_pos hz, if_pos hz]
  · have hpos := not_le.mp hz
    simp only [if_neg hz, if_pos hpos, Option.some_bind]
    split_ifs <;> rfl

/-! ### The rebuild trigger -/

theorem refreshIndexMap_of_dims (s : ICPCorrespondenceSearchProjective3) (dst : List Vector3)
    (h : s.index_map_.rows = s.projection_image_width_ ∧
      s.index_map_.cols = s.projection_image_height_) :
    s.refreshIndexMap dst = s := by
  unfold refreshIndexMap
  rw [if_neg]
  push_neg
  exact h

theorem refreshIndexMap_dims (s : ICPCorrespondenceSearchProjective3) (dst : List Vector3) :
    (s.refreshIndexMap dst).index_map_.rows = (s.refreshIndexMap dst).projection_image_width_ ∧
      (s.refreshIndexMap dst).index_map_.cols =
        (s.refreshIndexMap dst).projection_image_height_ := by
  unfold refreshIndexMap
  split_ifs with h
  · exact ⟨rfl, rfl⟩
  · push_neg at h
    exact h

/-! ### The rebuilt index map -/

theorem getD_set_self (l : List ℕ) (k v d : ℕ) (hk : k < l.length) :
    (l.set k v).getD k d = v := by
  simp [List.getD_eq_getElem?_getD, List.getElem?_set, hk]

theorem getD_set_of_ne (l : List ℕ) (k j v d : ℕ) (h : k ≠ j) :
    (l.set k v).getD j d = l.getD j d := by
  simp [List.getD_eq_getElem?_getD, List.getElem?_set, h]

theorem getD_set_cases (l : List ℕ) (k j v d : ℕ) :
    (l.set k v).getD j d = v ∧ k = j ∨ (l.set k v).getD j d = l.getD j d := by
  by_cases h : k = j
  · subst h
    by_cases hk : k < l.length
    · exact Or.inl ⟨getD_set_self l k v d hk, rfl⟩
    · right
      rw [List.set_eq_of_length_le (not_lt.mp hk)]
  · exact Or.inr (getD_set_of_ne l k j v d h)

theorem cell_lt (x y w h : ℕ) (hx : x < w) (hy : y < h) : x + y * w < w * h := by
  calc x + y * w < w + y * w := by omega
    _ = w * (y + 1) := by ring
    _ ≤ w * h := Nat.mul_le_mul_left w hy

theorem cell_injective (x y u v w : ℕ) (hx : x < w) (hu : u < w)
    (h : x + y * w = u + v * w) : x = u ∧ y = v := by
  have hmod := congrArg (fun n => n % w) h
  simp only [Nat.add_mul_mod_self_right, Nat.mod_eq_of_lt hx, Nat.mod_eq_of_lt hu] at hmod
  subst hmod
  have hw : 0 < w := by omega
  have hyv : y * w = v * w := by omega
  exact ⟨rfl, Nat.eq_of_mul_eq_mul_right hw hyv⟩

theorem foldl_range_succ (f : List ℕ → ℕ → List ℕ) (init : List ℕ) (n : ℕ) :
    (List.range (n + 1)).foldl f init = f ((List.range n).foldl f init) n := by
  rw [List.range_succ, List.foldl_append]
  rfl

theorem indexMapWrite_length (points : List Vector3) (E : RigidTransformation) (K : Matrix3)
    (w h : ℕ) (data : List ℕ) (i : ℕ) :
    (indexMapWrite points E K w h data i).length = data.length := by
  unfold indexMapWrite
  split_ifs <;> simp

theorem indexMapWrite_of_visible (points : List Vector3) (E : RigidTransformation) (K : Matrix3)
    (w h : ℕ) (data : List ℕ) (i : ℕ) (hz : 0 < (dstCam points E i).z)
    (hx : pixelX K (dstCam points E i) < w) (hy : pixelY K (dstCam points E i) < h) :
    indexMapWrite points E K w h data i =
      data.set (pixelX K (dstCam points E i) + pixelY K (dstCam points E i) * w) i := by
  unfold indexMapWrite
  rw [if_neg (not_le.mpr hz), if_neg (by push_neg; exact ⟨hx, hy⟩)]

theorem indexMapFold_length (points : List Vector3) (E : RigidTransformation) (K : Matrix3)
    (w h n : ℕ) :
    ((List.range n).foldl (indexMapWrite points E K w h)
      (List.replicate (w * h) empty)).length = w * h := by
  induction n with
  | zero => simp
  | succ n ih => rw [foldl_range_succ, indexMapWrite_length, ih]

theorem pointsToIndexMap_length (points : List Vector3) (E : RigidTransformation) (K : Matrix3)
    (w h : ℕ) : (pointsToIndexMap points E K w h).length = w * h :=
  indexMapFold_length points E K w h points.length

/-- Every cell of the map after the first `n` writes is empty or holds the index
of a destination point below `n` that has positive depth and projects to that
cell. -/
theorem indexMapFold_cell (points : List Vector3) (E : RigidTransformation) (K : Matrix3)
    (w h n k : ℕ) :
    ((List.range n).foldl (indexMapWrite points E K w h)
        (List.replicate (w * h) empty)).getD k empty = empty ∨
      (((List.range n).foldl (indexMapWrite points E K w h)
          (List.replicate (w * h) empty)).getD k empty < n ∧
        0 < (dstCam points E (((List.range n).foldl (indexMapWrite points E K w h)
          (List.replicate (w * h) empty)).getD k empty)).z) := by
  induction n with
  | zero =>
    left
    simp only [List.range_zero, List.foldl_nil, List.getD_eq_getElem?_getD]
    by_cases hk : k < w * h
    · simp [List.getElem?_replicate, hk]
    · simp [List.getElem?_replicate, hk]
  | succ n ih =>
    rw [foldl_range_succ]
    generalize (List.range n).foldl (indexMapWrite points E K w h)
      (List.replicate (w * h) empty) = data at ih ⊢
    have hkeep : data.getD k empty = empty ∨
        (data.getD k empty < n + 1 ∧ 0 < (dstCam points E (data.getD k empty)).z) := by
      rcases ih with h0 | ⟨h1, h2⟩
      · exact Or.inl h0
      · exact Or.inr ⟨Nat.lt_succ_of_lt h1, h2⟩
    unfold indexMapWrite
    split_ifs with hz hb
    · exact hkeep
    · exact hkeep
    · rcases getD_set_cases data (pixelX K (dstCam points E n) + pixelY K (dstCam points E n) * w)
        k n empty with ⟨hv, -⟩ | hv
      · rw [hv]
        exact Or.inr ⟨Nat.lt_succ_self n, not_le.mp hz⟩
      · rw [hv]
        exact hkeep

/-- The cell of a destination point with positive depth and a pixel inside the
image holds the index of that point after the first `n` writes, when no later point
among them is written to the same cell. -/
theorem indexMapFold_own_cell (points : List Vector3) (E : RigidTransformation) (K : Matrix3)
    (w h n i : ℕ) (hi : i < n) (hz : 0 < (dstCam points E i).z)
    (hx : pixelX K (dstCam points E i) < w) (hy : pixelY K (dstCam points E i) < h)
    (hlast : ∀ j, i < j → j < n → 0 < (dstCam points E j).z →
      pixelX K (dstCam points E j) < w → pixelY K (dstCam points E j) < h →
      pixelX K (dstCam points E j) + pixelY K (dstCam points E j) * w ≠
        pixelX K (dstCam points E i) + pixelY K (dstCam points E i) * w) :
    ((List.range n).foldl (indexMapWrite points E K w h)
        (List.replicate (w * h) empty)).getD
      (pixelX K (dstCam points E i) + pixelY K (dstCam points E i) * w) empty = i := by
  induction n with
  | zero => exact absurd hi (Nat.not_lt_zero i)
  | succ n ih =>
    rw [foldl_range_succ]
    have hlen := indexMapFold_length points E K w h n
    rcases Nat.lt_succ_iff_lt_or_eq.mp hi with hlt | heq
    · have ih2 := ih hlt (fun j hij hjn => hlast j hij (Nat.lt_succ_of_lt hjn))
      unfold indexMapWrite
      split_ifs with hzn hbn
      · exact ih2
      · exact ih2
      · push_neg at hbn
        rw [getD_set_of_ne _ _ _ _ _
          (hlast n hlt (Nat.lt_succ_self n) (not_le.mp hzn) hbn.1 hbn.2)]
        exact ih2
    · subst heq
      rw [indexMapWrite_of_visible points E K w h _ i hz hx hy]
      exact getD_set_self _ _ _ _ (by rw [hlen]; exact cell_lt _ _ w h hx hy)

theorem rebuiltIndexMap_of_cleared (s : ICPCorrespondenceSearchProjective3) (dst : List Vector3)
    (h : s.index_map_ = IndexMap.cleared) : IndexMapFresh s dst := by
  unfold IndexMapFresh refreshIndexMap
  split_ifs with hd
  · rfl
  · push_neg at hd
    rw [h] at hd ⊢
    simp only [IndexMap.cleared] at hd
    have hl := pointsToIndexMap_length dst s.projection_extrinsics_ s.projection_intrinsics_
      s.projection_image_width_ s.projection_image_height_
    rw [← hd.1, ← hd.2] at hl
    have hnil : pointsToIndexMap dst s.projection_extrinsics_ s.projection_intrinsics_ 0 0 = [] :=
      List.length_eq_zero.mp (by simpa using hl)
    simp only [rebuiltIndexMap, IndexMap.cleared, ← hd.1, ← hd.2, hnil]

theorem coeff_rebuiltIndexMap (s : ICPCorrespondenceSearchProjective3) (dst : List Vector3)
    (x y : ℕ) :
    (s.rebuiltIndexMap dst).coeff x y =
      ((List.range dst.length).foldl
        (indexMapWrite dst s.projection_extrinsics_ s.projection_intrinsics_
          s.projection_image_width_ s.projection_image_height_)
        (List.replicate (s.projection_image_width_ * s.projection_image_height_) empty)).getD
        (x + y * s.projection_image_width_) empty := rfl

theorem srcCell_of_fresh (s : ICPCorrespondenceSearchProjective3) (dst src : List Vector3)
    (i : ℕ) (hfresh : IndexMapFresh s dst) :
    srcCell (s.refreshIndexMap dst) src i =
      (s.rebuiltIndexMap dst).coeff
        (pixelX s.projection_intrinsics_ (s.projection_extrinsics_inv_.apply
          (src.getD i Vector3.zero)))
        (pixelY s.projection_intrinsics_ (s.projection_extrinsics_inv_.apply
          (src.getD i Vector3.zero))) := by
  unfold srcCell
  rw [hfresh]
  simp [srcCam]

/-! ### Scenario A -/

theorem identity_apply (p : Vector3) : RigidTransformation.Identity.apply p = p := by
  cases p
  simp [RigidTransformation.apply, RigidTransformation.Identity, Matrix3.mulVec, Vector3.add,
    Matrix3.identity, Vector3.zero]

theorem map_identity_apply (cloud : List Vector3) :
    cloud.map RigidTransformation.Identity.apply = cloud := by
  induction cloud with
  | nil => rfl
  | cons p ps ih => rw [List.map_cons, ih, identity_apply]

/-! ### Invalidation by the setters -/

theorem identity_inverse : RigidTransformation.Identity.inverse = RigidTransformation.Identity := by
  simp [RigidTransformation.inverse, RigidTransformation.Identity, Matrix3.transpose,
    Matrix3.identity, Matrix3.mulVec, Vector3.neg, Vector3.zero]

theorem reachable_extrinsics_inv (s : ICPCorrespondenceSearchProjective3) (hs : Reachable s) :
    s.projection_extrinsics_inv_ = s.projection_extrinsics_.inverse := by
  induction hs with
  | new => exact identity_inverse.symm
  | setProjectionIntrinsicMatrix mat _ ih => exact ih
  | setProjectionImageWidth w _ ih => exact ih
  | setProjectionImageHeight h _ ih => exact ih
  | setProjectionExtrinsicMatrix mat _ _ => rfl
  | setMaxDistance d _ ih => exact ih
  | setInlierFraction f _ ih => exact ih
  | findCorrespondences dst ev src _ ih =>
    rw [findCorrespondences_fst, refreshIndexMap_extrinsics_inv, refreshIndexMap_extrinsics]
    exact ih
  | findCorrespondencesTransformed dst ev src tform _ ih =>
    simp only [findCorrespondencesTransformed, find_correspondences_,
      refreshIndexMap_extrinsics_inv, refreshIndexMap_extrinsics]
    exact ih

theorem eq_configured_of_cleared (t : ICPCorrespondenceSearchProjective3)
    (hmap : t.index_map_ = IndexMap.cleared)
    (hinv : t.projection_extrinsics_inv_ = t.projection_extrinsics_.inverse) :
    t = configured t.projection_intrinsics_ t.projection_image_width_
      t.projection_image_height_ t.projection_extrinsics_ t.max_distance_ t.inlier_fraction_ := by
  cases t
  simp only at hmap hinv
  subst hmap hinv
  rfl

theorem run_index_map (s : ICPCorrespondenceSearchProjective3) (call : ProjectionSetterCall) :
    (call.run s).index_map_ = IndexMap.cleared := by
  cases call <;> rfl

theorem run_extrinsics_inv (s : ICPCorrespondenceSearchProjective3)
    (call : ProjectionSetterCall)
    (hinv : s.projection_extrinsics_inv_ = s.projection_extrinsics_.inverse) :
    (call.run s).projection_extrinsics_inv_ = (call.run s).projection_extrinsics_.inverse := by
  cases call
  · exact hinv
  · exact hinv
  · exact hinv
  · rfl

/-- C2: every correspondence the search returns has a value strictly below
`max_distance`, whatever the evaluator, the threshold and the inlier fraction;
its value is never the rejection value `max_distance + 1`. -/
theorem findCorrespondences_value_lt (s : ICPCorrespondenceSearchProjective3)
    (dst : List Vector3) (ev : Evaluator) (src : List Vector3) (c : Correspondence)
    (hc : c ∈ (s.findCorrespondences dst ev src).2) :
    c.value < s.max_distance_ ∧ c.value ≠ s.max_distance_ + 1 := by
  have hm := mem_findCorrespondences_sub s dst ev src c hc
  simp only [compactedCorrespondences, List.mem_filter, decide_eq_true_eq,
    refreshIndexMap_max_distance] at hm
  refine ⟨hm.2, fun h => ?_⟩
  have := hm.2
  rw [h] at this
  linarith

/-- Witness of C2: the entry `(1, 1, 0)` of the small search is below the
default threshold. -/
theorem findCorrespondences_value_lt_witness :
    (⟨1, 1, 0⟩ : Correspondence) ∈
        (smallSearch.findCorrespondences smallCloud CorrespondenceDistanceEvaluator
          smallCloud).2 ∧
      ((⟨1, 1, 0⟩ : Correspondence).value < smallSearch.max_distance_ ∧
        (⟨1, 1, 0⟩ : Correspondence).value ≠ smallSearch.max_distance_ + 1) :=
  ⟨by decide!, findCorrespondences_value_lt smallSearch smallCloud
    CorrespondenceDistanceEvaluator smallCloud ⟨1, 1, 0⟩ (by decide!)⟩

/-- C3 fails as stated: with an evaluator that scales the distance down, the
small search returns the pair of `(0, 0, 1)` and `(0, 0, 2)`, whose squared
distance `1` is not below the threshold `1e-4`. -/
theorem squaredDistance_lt_counterexample :
    (⟨0, 0, 1 / 100000⟩ : Correspondence) ∈
        (smallSearch.findCorrespondences [⟨0, 0, 1⟩] (fun _ _ d => d / 100000)
          [⟨0, 0, 2⟩]).2 ∧
      ¬ squaredDistance [⟨0, 0, 1⟩] [⟨0, 0, 2⟩] ⟨0, 0, 1 / 100000⟩ < smallSearch.max_distance_ := by
  decide!

/-- C3 as amended: every returned correspondence carries the value the
evaluator gives for its squared distance, and that value is below
`max_distance`; with the default evaluator, which returns the distance, the
squared distance itself is below `max_distance`. -/
theorem findCorrespondences_evaluated_distance_lt (s : ICPCorrespondenceSearchProjective3)
    (dst : List Vector3) (ev : Evaluator) (src : List Vector3) (c : Correspondence)
    (hc : c ∈ (s.findCorrespondences dst ev src).2) :
    c.value = ev c.indexInFirst c.indexInSecond (squaredDistance dst src c) ∧
      ev c.indexInFirst c.indexInSecond (squaredDistance dst src c) < s.max_distance_ ∧
      (ev = CorrespondenceDistanceEvaluator → squaredDistance dst src c < s.max_distance_) := by
  have hm := mem_findCorrespondences_sub s dst ev src c hc
  rw [mem_compactedCorrespondences] at hm
  obtain ⟨i, -, -, hv, rfl⟩ := hm
  simp only [refreshIndexMap_max_distance, pairValue] at hv
  refine ⟨rfl, hv, fun hev => ?_⟩
  subst hev
  exact hv

/-- Witness of amended C3: the entry `(1, 1, 0)` of the small search under the
default evaluator. -/
theorem findCorrespondences_evaluated_distance_lt_witness :
    (⟨1, 1, 0⟩ : Correspondence) ∈
        (smallSearch.findCorrespondences smallCloud CorrespondenceDistanceEvaluator
          smallCloud).2 ∧
      squaredDistance smallCloud smallCloud ⟨1, 1, 0⟩ < smallSearch.max_distance_ :=
  ⟨by decide!, (findCorrespondences_evaluated_distance_lt smallSearch smallCloud
    CorrespondenceDistanceEvaluator smallCloud ⟨1, 1, 0⟩ (by decide!)).2.2 rfl⟩

/-- C4: after any of the four setters of the projection geometry, called on any
state with any argument, the cached index map is the empty `0 x 0` matrix; the
next search leaves the map built from the destination cloud and the
configuration then in effect, and the object and the result of that search are
those of a newly constructed object given the same configuration, clouds and
evaluator. -/
theorem setter_invalidates_index_map (s : ICPCorrespondenceSearchProjective3)
    (hs : Reachable s) (call : ProjectionSetterCall) (dst : List Vector3) (ev : Evaluator)
    (src : List Vector3) :
    (call.run s).index_map_ = IndexMap.cleared ∧
      ((call.run s).findCorrespondences dst ev src).1.index_map_ =
        (call.run s).rebuiltIndexMap dst ∧
      (call.run s).findCorrespondences dst ev src =
        (configured (call.run s).projection_intrinsics_ (call.run s).projection_image_width_
          (call.run s).projection_image_height_ (call.run s).projection_extrinsics_
          (call.run s).max_distance_ (call.run s).inlier_fraction_).findCorrespondences
          dst ev src := by
  have hmap := run_index_map s call
  have hinv := run_extrinsics_inv s call (reachable_extrinsics_inv s hs)
  refine ⟨hmap, ?_, ?_⟩
  · rw [findCorrespondences_fst]
    exact rebuiltIndexMap_of_cleared (call.run s) dst hmap
  · exact congrArg (fun t => t.findCorrespondences dst ev src)
      (eq_configured_of_cleared (call.run s) hmap hinv)

/-- Witness of C4: the object left by a first search is a state of the search
object; setting its image width to 0 clears the map, and the next search
returns what a new object with that configuration returns. -/
theorem setter_invalidates_index_map_witness :
    Reachable searchedOnce ∧
      ((ProjectionSetterCall.imageWidth 0).run searchedOnce).index_map_ = IndexMap.cleared ∧
      ((ProjectionSetterCall.imageWidth 0).run searchedOnce).findCorrespondences smallCloud
          CorrespondenceDistanceEvaluator smallCloud =
        (configured smallIntrinsics 0 4 RigidTransformation.Identity (1 / 10000)
          1).findCorrespondences smallCloud CorrespondenceDistanceEvaluator smallCloud :=
  have hr : Reachable searchedOnce :=
    Reachable.findCorrespondences _ _ _
      (Reachable.setProjectionIntrinsicMatrix _
        (Reachable.setProjectionImageHeight _
          (Reachable.setProjectionImageWidth _ Reachable.new)))
  have h := setter_invalidates_index_map searchedOnce hr (ProjectionSetterCall.imageWidth 0)
    smallCloud CorrespondenceDistanceEvaluator smallCloud
  ⟨hr, h.1, h.2.2.trans (by decide!)⟩

/-- C5: the compaction pass yields a sequence strictly ascending in
`indexInSecond`, so no source index occurs twice and there are at most as many
entries as source points; with inlier fraction 1.0 that sequence is the
returned set. -/
theorem compactedCorrespondences_strictly_ascending (s : ICPCorrespondenceSearchProjective3)
    (dst : List Vector3) (ev : Evaluator) (src : List Vector3) :
    ((s.refreshIndexMap dst).compactedCorrespondences dst ev src).Pairwise
        (fun a b => a.indexInSecond < b.indexInSecond) ∧
      (((s.refreshIndexMap dst).compactedCorrespondences dst ev src).map
        Correspondence.indexInSecond).Nodup ∧
      ((s.refreshIndexMap dst).compactedCorrespondences dst ev src).length ≤ src.length ∧
      (s.inlier_fraction_ = 1 → (s.findCorrespondences dst ev src).2 =
        (s.refreshIndexMap dst).compactedCorrespondences dst ev src) := by
  have hpw : ((s.refreshIndexMap dst).compactedCorrespondences dst ev src).Pairwise
      (fun a b => a.indexInSecond < b.indexInSecond) := by
    unfold compactedCorrespondences
    rw [List.filter_map, List.pairwise_map]
    have hsub : ((List.range src.length).filter
        ((fun c => decide (c.value < (s.refreshIndexMap dst).max_distance_)) ∘
          corrSlot (s.refreshIndexMap dst) dst ev src)).Pairwise (fun a b => a < b) :=
      (List.pairwise_lt_range src.length).sublist (List.filter_sublist _)
    refine hsub.imp_of_mem ?_
    intro a b ha hb hab
    simp only [List.mem_filter, Function.comp_apply, decide_eq_true_eq] at ha hb
    have ha2 := ((corrSlot_value_lt_iff _ dst ev src a).mp ha.2).1
    have hb2 := ((corrSlot_value_lt_iff _ dst ev src b).mp hb.2).1
    rw [corrSlot_of_passes _ dst ev src a ha2, corrSlot_of_passes _ dst ev src b hb2]
    exact hab
  refine ⟨hpw, ?_, ?_, ?_⟩
  · unfold List.Nodup
    rw [List.pairwise_map]
    exact hpw.imp (fun h => ne_of_lt h)
  · unfold compactedCorrespondences
    calc (List.filter _ _).length ≤ (List.map _ (List.range src.length)).length :=
          List.length_filter_le _ _
      _ = src.length := by simp
  · intro hf
    rw [findCorrespondences_snd, filterCorrespondencesFraction_one _ _ (le_of_eq hf.symm)]

/-- Witness of C5: the small search has inlier fraction 1.0 and returns its
compaction, the entries of source indices 0, 1 and 2 in that order. -/
theorem compactedCorrespondences_strictly_ascending_witness :
    smallSearch.inlier_fraction_ = 1 ∧
      (smallSearch.findCorrespondences smallCloud CorrespondenceDistanceEvaluator smallCloud).2 =
        (smallSearch.refreshIndexMap smallCloud).compactedCorrespondences smallCloud
          CorrespondenceDistanceEvaluator smallCloud ∧
      (smallSearch.findCorrespondences smallCloud CorrespondenceDistanceEvaluator smallCloud).2 =
        [⟨2, 0, 1 / 1000000⟩, ⟨1, 1, 0⟩, ⟨2, 2, 0⟩] :=
  ⟨by decide!, (compactedCorrespondences_strictly_ascending smallSearch smallCloud
    CorrespondenceDistanceEvaluator smallCloud).2.2.2 (by decide!), by decide!⟩

/-- C6: for an inlier fraction `f` in `(0,1]` the search returns `floor(f * n)`
correspondences, `n` being the number of slots the compaction kept; the
returned entries together with the discarded ones are the compacted ones, every
returned value is at most every discarded value, and with `f = 1` nothing is
discarded. -/
theorem findCorrespondences_trimmed (s : ICPCorrespondenceSearchProjective3)
    (dst : List Vector3) (ev : Evaluator) (src : List Vector3)
    (hf0 : 0 < s.inlier_fraction_) (hf1 : s.inlier_fraction_ ≤ 1) :
    ((s.findCorrespondences dst ev src).2.length : ℤ) =
        ⌊s.inlier_fraction_ *
          (((s.refreshIndexMap dst).compactedCorrespondences dst ev src).length : ℚ)⌋ ∧
      ∃ discarded : List Correspondence,
        ((s.findCorrespondences dst ev src).2 ++ discarded).Perm
            ((s.refreshIndexMap dst).compactedCorrespondences dst ev src) ∧
          (∀ a ∈ (s.findCorrespondences dst ev src).2, ∀ b ∈ discarded, a.value ≤ b.value) ∧
          (s.inlier_fraction_ = 1 → discarded = []) := by
  rw [findCorrespondences_snd]
  generalize (s.refreshIndexMap dst).compactedCorrespondences dst ev src = cs
  generalize hfe : s.inlier_fraction_ = f at hf0 hf1
  by_cases h1 : 1 ≤ f
  · have hf : f = 1 := le_antisymm hf1 h1
    subst hf
    rw [filterCorrespondencesFraction_one cs 1 le_rfl]
    refine ⟨by simp, [], by simp, by simp, fun _ => rfl⟩
  · have hnn : (0 : ℚ) ≤ f * (cs.length : ℚ) := mul_nonneg hf0.le (Nat.cast_nonneg _)
    have hfl0 : 0 ≤ ⌊f * (cs.length : ℚ)⌋ := Int.floor_nonneg.mpr hnn
    have hle : f * (cs.length : ℚ) ≤ (cs.length : ℚ) :=
      mul_le_of_le_one_left (Nat.cast_nonneg _) hf1
    have hfl1 : ⌊f * (cs.length : ℚ)⌋ ≤ (cs.length : ℤ) := by
      have h2 : ⌊f * (cs.length : ℚ)⌋ ≤ ⌊((cs.length : ℤ) : ℚ)⌋ := Int.floor_mono (by simpa using hle)
      simpa using h2
    have hk : ⌊f * (cs.length : ℚ)⌋.toNat ≤ cs.length := by omega
    have hsorted : (cs.insertionSort (fun a b => a.value ≤ b.value)).Pairwise
        (fun a b => a.value ≤ b.value) := by
      haveI : IsTotal Correspondence (fun a b => a.value ≤ b.value) :=
        ⟨fun a b => le_total a.value b.value⟩
      haveI : IsTrans Correspondence (fun a b => a.value ≤ b.value) :=
        ⟨fun a b c hab hbc => le_trans hab hbc⟩
      exact List.sorted_insertionSort (fun a b => a.value ≤ b.value) cs
    have hlen : (cs.insertionSort (fun a b => a.value ≤ b.value)).length = cs.length :=
      List.length_insertionSort _ cs
    simp only [filterCorrespondencesFraction, if_neg h1]
    refine ⟨?_, (cs.insertionSort (fun a b => a.value ≤ b.value)).drop
      ⌊f * (cs.length : ℚ)⌋.toNat, ?_, ?_, ?_⟩
    · rw [List.length_take, hlen, min_eq_left hk]
      exact Int.toNat_of_nonneg hfl0
    · rw [List.take_append_drop]
      exact List.perm_insertionSort _ cs
    · intro a ha b hb
      rw [← List.take_append_drop ⌊f * (cs.length : ℚ)⌋.toNat
        (cs.insertionSort (fun a b => a.value ≤ b.value)), List.pairwise_append] at hsorted
      exact hsorted.2.2 a ha b hb
    · intro hf
      exact absurd (le_of_eq hf.symm) h1

/-- Witness of C6: with inlier fraction one half the small search keeps one of
its three compacted entries, one of the two with value 0. -/
theorem findCorrespondences_trimmed_witness :
    (0 < (smallSearch.setInlierFraction (1 / 2)).inlier_fraction_ ∧
        (smallSearch.setInlierFraction (1 / 2)).inlier_fraction_ ≤ 1) ∧
      (((smallSearch.setInlierFraction (1 / 2)).findCorrespondences smallCloud
          CorrespondenceDistanceEvaluator smallCloud).2.length : ℤ) =
        ⌊(smallSearch.setInlierFraction (1 / 2)).inlier_fraction_ *
          ((((smallSearch.setInlierFraction (1 / 2)).refreshIndexMap
            smallCloud).compactedCorrespondences smallCloud CorrespondenceDistanceEvaluator
            smallCloud).length : ℚ)⌋ ∧
      ((smallSearch.setInlierFraction (1 / 2)).findCorrespondences smallCloud
          CorrespondenceDistanceEvaluator smallCloud).2 = [⟨1, 1, 0⟩] :=
  ⟨⟨by decide!, by decide!⟩,
    (findCorrespondences_trimmed (smallSearch.setInlierFraction (1 / 2)) smallCloud
      CorrespondenceDistanceEvaluator smallCloud (by decide!) (by decide!)).1,
    by decide!⟩

/-- C7 fails as stated: after a first search on the destination point
`(0, 0, 1)`, the destination cloud becomes the single point `(0, 0, -1/1000)`,
behind the camera; the index map is not rebuilt and the next search pairs that
point with the source point `(0, 0, 1/1000)`. -/
theorem destination_depth_counterexample :
    (⟨0, 0, 1 / 250000⟩ : Correspondence) ∈
        (searchedOnce.findCorrespondences [⟨0, 0, -1 / 1000⟩] CorrespondenceDistanceEvaluator
          [⟨0, 0, 1 / 1000⟩]).2 ∧
      (dstCam [⟨0, 0, -1 / 1000⟩] searchedOnce.projection_extrinsics_ 0).z ≤ 0 := by
  decide!

/-- C7 as amended: when the index map the search works with is the one built
from the current destination cloud and configuration, every returned
correspondence names a destination point of the cloud whose camera-frame depth
under the extrinsic transform is positive. -/
theorem findCorrespondences_destination_depth_pos (s : ICPCorrespondenceSearchProjective3)
    (dst : List Vector3) (ev : Evaluator) (src : List Vector3) (c : Correspondence)
    (hfresh : IndexMapFresh s dst) (hc : c ∈ (s.findCorrespondences dst ev src).2) :
    c.indexInFirst < dst.length ∧
      0 < (dstCam dst s.projection_extrinsics_ c.indexInFirst).z := by
  have hm := mem_findCorrespondences_sub s dst ev src c hc
  rw [mem_compactedCorrespondences] at hm
  obtain ⟨i, -, hp, -, rfl⟩ := hm
  have hne := hp.2.2.2
  rw [srcCell_of_fresh s dst src i hfresh, coeff_rebuiltIndexMap] at hne ⊢
  rcases indexMapFold_cell dst s.projection_extrinsics_ s.projection_intrinsics_
    s.projection_image_width_ s.projection_image_height_ dst.length
    (pixelX s.projection_intrinsics_ (s.projection_extrinsics_inv_.apply
        (src.getD i Vector3.zero))
      + pixelY s.projection_intrinsics_ (s.projection_extrinsics_inv_.apply
        (src.getD i Vector3.zero)) * s.projection_image_width_) with h0 | h1
  · exact absurd h0 hne
  · exact h1

/-- Witness of amended C7: the small search has a cleared map, rebuilds it from
`smallCloud`, and the destination point of its entry `(1, 1, 0)` has depth 1. -/
theorem findCorrespondences_destination_depth_pos_witness :
    IndexMapFresh smallSearch smallCloud ∧
      (⟨1, 1, 0⟩ : Correspondence) ∈
        (smallSearch.findCorrespondences smallCloud CorrespondenceDistanceEvaluator
          smallCloud).2 ∧
      0 < (dstCam smallCloud smallSearch.projection_extrinsics_ 1).z :=
  ⟨by unfold IndexMapFresh; decide!, by decide!,
    (findCorrespondences_destination_depth_pos smallSearch smallCloud
      CorrespondenceDistanceEvaluator smallCloud ⟨1, 1, 0⟩ (by unfold IndexMapFresh; decide!)
      (by decide!)).2⟩

/-- C8: the depth test is strict. A source point whose camera-frame depth is
zero or negative yields no correspondence, its slot keeps the rejection value,
and no slot computation ever divides by a divisor that is not strictly
positive: the computation with guarded divisions always succeeds, with the
slot content as its result. -/
theorem findCorrespondences_depth_strict (s : ICPCorrespondenceSearchProjective3)
    (dst : List Vector3) (ev : Evaluator) (src : List Vector3) (i : ℕ)
    (hz : (s.projection_extrinsics_inv_.apply (src.getD i Vector3.zero)).z ≤ 0) :
    (∀ c ∈ (s.findCorrespondences dst ev src).2, c.indexInSecond ≠ i) ∧
      corrSlot (s.refreshIndexMap dst) dst ev src i = ⟨0, 0, s.max_distance_ + 1⟩ ∧
      ∀ j, corrSlotChecked (s.refreshIndexMap dst) dst ev src j =
        some (corrSlot (s.refreshIndexMap dst) dst ev src j) := by
  have hnp : ¬ PassesGuards (s.refreshIndexMap dst) src i := by
    intro hp
    have h0 := hp.1
    simp only [srcCam, refreshIndexMap_extrinsics_inv] at h0
    exact absurd h0 (not_lt.mpr hz)
  refine ⟨?_, ?_, fun j => corrSlotChecked_eq _ dst ev src j⟩
  · intro c hc hci
    have hm := mem_findCorrespondences_sub s dst ev src c hc
    rw [mem_compactedCorrespondences] at hm
    obtain ⟨j, -, hpj, -, rfl⟩ := hm
    simp only at hci
    subst hci
    exact hnp hpj
  · have h := corrSlot_of_not_passes (s.refreshIndexMap dst) dst ev src i hnp
    simpa using h

/-- Witness of C8: the point of `cloudBehind` at depth zero (source index 1)
yields no correspondence of the small search. -/
theorem findCorrespondences_depth_strict_witness :
    (smallSearch.projection_extrinsics_inv_.apply (cloudBehind.getD 1 Vector3.zero)).z ≤ 0 ∧
      ∀ c ∈ (smallSearch.findCorrespondences smallCloud CorrespondenceDistanceEvaluator
        cloudBehind).2, c.indexInSecond ≠ 1 :=
  ⟨by decide!, (findCorrespondences_depth_strict smallSearch smallCloud
    CorrespondenceDistanceEvaluator cloudBehind 1 (by decide!)).1⟩

/-- C9 fails as stated: the first and the third point of `smallCloud` project to
the same pixel, the cell holds the index 2 of the later one, and the search of
the cloud against itself under the identity transform pairs source index 0 with
destination index 2. -/
theorem identity_scenario_counterexample :
    (⟨2, 0, 1 / 1000000⟩ : Correspondence) ∈
        (smallSearch.findCorrespondencesTransformed smallCloud CorrespondenceDistanceEvaluator
          smallCloud RigidTransformation.Identity).2 ∧
      (⟨2, 0, 1 / 1000000⟩ : Correspondence).indexInFirst ≠
        (⟨2, 0, 1 / 1000000⟩ : Correspondence).indexInSecond := by
  decide!

/-- C9 as amended: when the source cloud is the destination cloud, the transform
is the identity, the index map is the one built from that cloud and no two of
its points with positive camera-frame depth project to the same pixel, every
kept correspondence has `indexInFirst = indexInSecond`. -/
theorem identity_scenario_index_eq (s : ICPCorrespondenceSearchProjective3)
    (cloud : List Vector3) (ev : Evaluator) (c : Correspondence)
    (hinv : s.projection_extrinsics_inv_ = s.projection_extrinsics_.inverse)
    (hfresh : IndexMapFresh s cloud)
    (hinj : ∀ i j, i < j → j < cloud.length →
      0 < (dstCam cloud s.projection_extrinsics_ i).z →
      0 < (dstCam cloud s.projection_extrinsics_ j).z →
      ¬ (pixelX s.projection_intrinsics_ (dstCam cloud s.projection_extrinsics_ i) =
          pixelX s.projection_intrinsics_ (dstCam cloud s.projection_extrinsics_ j) ∧
        pixelY s.projection_intrinsics_ (dstCam cloud s.projection_extrinsics_ i) =
          pixelY s.projection_intrinsics_ (dstCam cloud s.projection_extrinsics_ j)))
    (hc : c ∈ (s.findCorrespondencesTransformed cloud ev cloud
      RigidTransformation.Identity).2) :
    c.indexInFirst = c.indexInSecond := by
  have hc2 : c ∈ (s.findCorrespondences cloud ev cloud).2 := by
    simpa [findCorrespondencesTransformed, findCorrespondences, map_identity_apply] using hc
  have hm := mem_findCorrespondences_sub s cloud ev cloud c hc2
  rw [mem_compactedCorrespondences] at hm
  obtain ⟨i, hi, hp, -, rfl⟩ := hm
  show srcCell (s.refreshIndexMap cloud) cloud i = i
  obtain ⟨hz, hx, hy, -⟩ := hp
  simp only [srcCam, refreshIndexMap_extrinsics_inv, refreshIndexMap_intrinsics,
    refreshIndexMap_width, refreshIndexMap_height, hinv] at hz hx hy
  rw [srcCell_of_fresh s cloud cloud i hfresh, coeff_rebuiltIndexMap, hinv]
  refine indexMapFold_own_cell cloud s.projection_extrinsics_ s.projection_intrinsics_
    s.projection_image_width_ s.projection_image_height_ cloud.length i hi hz hx hy ?_
  intro j hij hj hzj hxj _ hcell
  obtain ⟨h1, h2⟩ := cell_injective _ _ _ _ _ hxj hx hcell
  exact hinj i j hij hj hz hzj ⟨h1.symm, h2.symm⟩

/-- Witness of amended C9: the two points of `twoPoints` project to the pixels
`(1, 1)` and `(2, 2)` of the small camera, and the entry of source index 1 has
destination index 1. -/
theorem identity_scenario_index_eq_witness :
    (⟨1, 1, 0⟩ : Correspondence) ∈
        (smallSearch.findCorrespondencesTransformed twoPoints CorrespondenceDistanceEvaluator
          twoPoints RigidTransformation.Identity).2 ∧
      (⟨1, 1, 0⟩ : Correspondence).indexInFirst = (⟨1, 1, 0⟩ : Correspondence).indexInSecond :=
  ⟨by decide!, identity_scenario_index_eq smallSearch twoPoints CorrespondenceDistanceEvaluator
    ⟨1, 1, 0⟩ (by decide!) (by unfold IndexMapFresh; decide!)
    (by
      intro i j hij hj
      have hj2 : j < 2 := hj
      have hj1 : j = 1 := by omega
      have hi0 : i = 0 := by omega
      subst hj1 hi0
      decide!)
    (by decide!)⟩

/-- C10: the rebuild looks at dimensions only. A search on an object whose
index map already has the configured dimensions leaves the object, its map
included, as it was, whatever the destination cloud; and of two consecutive
searches the second leaves the object as the first left it and computes its
result from the map the first left, whatever the second destination cloud. -/
theorem findCorrespondences_rebuild_by_dimension (s : ICPCorrespondenceSearchProjective3)
    (dstA : List Vector3) (evA : Evaluator) (srcA : List Vector3)
    (dstB : List Vector3) (evB : Evaluator) (srcB : List Vector3) :
    (s.index_map_.rows = s.projection_image_width_ ∧
        s.index_map_.cols = s.projection_image_height_ →
        (s.findCorrespondences dstA evA srcA).1 = s) ∧
      ((s.findCorrespondences dstA evA srcA).1.findCorrespondences dstB evB srcB).1 =
        (s.findCorrespondences dstA evA srcA).1 ∧
      ((s.findCorrespondences dstA evA srcA).1.findCorrespondences dstB evB srcB).2 =
        filterCorrespondencesFraction
          ((s.findCorrespondences dstA evA srcA).1.compactedCorrespondences dstB evB srcB)
          s.inlier_fraction_ := by
  have h2 : ((s.findCorrespondences dstA evA srcA).1.findCorrespondences dstB evB srcB).1 =
      (s.findCorrespondences dstA evA srcA).1 := by
    rw [findCorrespondences_fst, findCorrespondences_fst]
    exact refreshIndexMap_of_dims _ dstB (refreshIndexMap_dims s dstA)
  refine ⟨fun h => ?_, h2, ?_⟩
  · rw [findCorrespondences_fst]
    exact refreshIndexMap_of_dims s dstA h
  · rw [findCorrespondences_snd, ← findCorrespondences_fst _ dstB evB srcB, h2,
      findCorrespondences_fst]
    simp

/-- Witness of C10: the object left by a first search has a four by four map,
and a search on another destination cloud leaves it as it is. -/
theorem findCorrespondences_rebuild_by_dimension_witness :
    (searchedOnce.index_map_.rows = searchedOnce.projection_image_width_ ∧
        searchedOnce.index_map_.cols = searchedOnce.projection_image_height_) ∧
      (searchedOnce.findCorrespondences cloudBehind CorrespondenceDistanceEvaluator
        smallCloud).1 = searchedOnce :=
  ⟨by decide!, (findCorrespondences_rebuild_by_dimension searchedOnce cloudBehind
    CorrespondenceDistanceEvaluator smallCloud cloudBehind CorrespondenceDistanceEvaluator
    smallCloud).1 (by decide!)⟩

end ICPCorrespondenceSearchProjective3

namespace CombinedMetricRigidICP3

/-! ### The two hooks of the ICP variant -/

theorem identity_compose (t : RigidTransformation) :
    RigidTransformation.Identity.compose t = t := by
  obtain ⟨⟨a, b, c, d, e, f, g, h, i⟩, ⟨x, y, z⟩⟩ := t
  simp [RigidTransformation.compose, RigidTransformation.Identity, Matrix3.mul, Matrix3.mulVec,
    Matrix3.identity, Vector3.add, Vector3.zero]

theorem compose_apply (a b : RigidTransformation) (p : Vector3) :
    (a.compose b).apply p = a.apply (b.apply p) := by
  simp only [RigidTransformation.compose, RigidTransformation.apply, Matrix3.mul, Matrix3.mulVec,
    Vector3.add, Vector3.mk.injEq]
  refine ⟨?_, ?_, ?_⟩ <;> ring

theorem computeResiduals_fst (search : NearestNeighborSearch) (s : CombinedMetricRigidICP3) :
    (computeResiduals search s).1 = s := by
  unfold computeResiduals
  split_ifs <;> rfl

theorem afterResidualCalls_eq (search : NearestNeighborSearch) (s : CombinedMetricRigidICP3)
    (n : ℕ) : afterResidualCalls search s n = s := by
  induction n with
  | zero => rfl
  | succ n ih => rw [afterResidualCalls, computeResiduals_fst, ih]

theorem nearestBelow_spec (points : List Vector3) (q : Vector3) (n : ℕ) :
    nearestBelow points q (n + 1) < n + 1 ∧
      ∀ j, j < n + 1 →
        ((points.getD (nearestBelow points q (n + 1)) Vector3.zero).sub q).squaredNorm ≤
          ((points.getD j Vector3.zero).sub q).squaredNorm := by
  induction n with
  | zero =>
    have h0 : nearestBelow points q 1 = 0 := by
      simp [nearestBelow]
    rw [h0]
    refine ⟨Nat.zero_lt_one, fun j hj => ?_⟩
    have hj0 : j = 0 := by omega
    rw [hj0]
  | succ n ih =>
    obtain ⟨hlt, hmin⟩ := ih
    rw [nearestBelow]
    split_ifs with hcmp
    · refine ⟨Nat.lt_succ_self _, fun j hj => ?_⟩
      rcases Nat.lt_succ_iff_lt_or_eq.mp hj with hjl | hje
      · exact le_trans (le_of_lt hcmp) (hmin j hjl)
      · rw [hje]
    · refine ⟨Nat.lt_succ_of_lt hlt, fun j hj => ?_⟩
      rcases Nat.lt_succ_iff_lt_or_eq.mp hj with hjl | hje
      · exact hmin j hjl
      · rw [hje]
        exact not_lt.mp hcmp

theorem exactNearestNeighborSearch_exact : IsExactNearest exactNearestNeighborSearch := by
  intro points q hne
  unfold exactNearestNeighborSearch
  obtain ⟨n, hn⟩ : ∃ n, points.length = n + 1 :=
    Nat.exists_eq_succ_of_ne_zero (fun h => hne (List.length_eq_zero.mp h))
  rw [hn]
  exact nearestBelow_spec points q n

theorem sum_squares_eq_zero (l : Matrix3) (t : Vector3) :
    l.squaredNorm + t.squaredNorm ≤ 0 ↔
      (l.m00 = 0 ∧ l.m01 = 0 ∧ l.m02 = 0 ∧ l.m10 = 0 ∧ l.m11 = 0 ∧ l.m12 = 0 ∧ l.m20 = 0 ∧
        l.m21 = 0 ∧ l.m22 = 0) ∧ t.x = 0 ∧ t.y = 0 ∧ t.z = 0 := by
  obtain ⟨a, b, c, d, e, f, g, h, i⟩ := l
  obtain ⟨x, y, z⟩ := t
  simp only [Matrix3.squaredNorm, Vector3.squaredNorm]
  constructor
  · intro hle
    have ha := mul_self_nonneg a
    have hb := mul_self_nonneg b
    have hc := mul_self_nonneg c
    have hd := mul_self_nonneg d
    have he := mul_self_nonneg e
    have hf := mul_self_nonneg f
    have hg := mul_self_nonneg g
    have hh := mul_self_nonneg h
    have hi := mul_self_nonneg i
    have hx := mul_self_nonneg x
    have hy := mul_self_nonneg y
    have hz := mul_self_nonneg z
    refine ⟨⟨?_, ?_, ?_, ?_, ?_, ?_, ?_, ?_, ?_⟩, ?_, ?_, ?_⟩ <;>
      exact mul_self_eq_zero.mp (by linarith)
  · rintro ⟨⟨rfl, rfl, rfl, rfl, rfl, rfl, rfl, rfl, rfl⟩, rfl, rfl, rfl⟩
    simp

/-- C11: on an empty destination cloud `computeResiduals` returns one entry per
source point, every entry the not-a-number value, whatever the nearest-neighbour
search of the spatial index would answer. -/
theorem computeResiduals_empty_destination (search : NearestNeighborSearch)
    (s : CombinedMetricRigidICP3) (hdst : s.dst_points_ = []) :
    (computeResiduals search s).2.length = s.src_points_.length ∧
      (∀ r ∈ (computeResiduals search s).2, r = none) ∧
      (computeResiduals search s).2 = List.replicate s.src_points_.length none ∧
      ∀ other : NearestNeighborSearch,
        (computeResiduals other s).2 = (computeResiduals search s).2 := by
  have h : ∀ f : NearestNeighborSearch,
      (computeResiduals f s).2 = List.replicate s.src_points_.length none := by
    intro f
    simp [computeResiduals, hdst]
  refine ⟨by rw [h search, List.length_replicate], ?_, h search, fun other => ?_⟩
  · intro r hr
    rw [h search] at hr
    exact (List.mem_replicate.mp hr).2
  · rw [h other, h search]

/-- Witness of C11: the sample object without destination points has two source
points and gets two not-a-number residuals. -/
theorem computeResiduals_empty_destination_witness :
    sampleICPNoDestination.dst_points_ = [] ∧
      (computeResiduals exactNearestNeighborSearch sampleICPNoDestination).2 = [none, none] :=
  ⟨rfl, (computeResiduals_empty_destination exactNearestNeighborSearch sampleICPNoDestination
    rfl).2.2.1⟩

/-- C12: `computeResiduals` leaves the object as it was: running transform,
correspondence set, last-delta signal, metric weights and transformed-source
buffer are unchanged, and after any number of calls the next `updateEstimate`
gives what it gives without them. -/
theorem computeResiduals_frame (search : NearestNeighborSearch) (estimator : Estimator)
    (rotation : RotationExtraction) (s : CombinedMetricRigidICP3) (n : ℕ) :
    (computeResiduals search s).1 = s ∧
      ((computeResiduals search s).1.transform_ = s.transform_ ∧
        (computeResiduals search s).1.correspondences_ = s.correspondences_ ∧
        (computeResiduals search s).1.last_delta_norm_ = s.last_delta_norm_ ∧
        (computeResiduals search s).1.point_to_point_weight_ = s.point_to_point_weight_ ∧
        (computeResiduals search s).1.point_to_plane_weight_ = s.point_to_plane_weight_ ∧
        (computeResiduals search s).1.src_points_trans_ = s.src_points_trans_) ∧
      updateEstimate estimator rotation (afterResidualCalls search s n) =
        updateEstimate estimator rotation s := by
  have h := computeResiduals_fst search s
  refine ⟨h, ?_, by rw [afterResidualCalls_eq]⟩
  rw [h]
  exact ⟨rfl, rfl, rfl, rfl, rfl, rfl⟩

/-- C13: on a non-empty destination cloud, with an exact nearest-neighbour
search, `computeResiduals` returns one entry per source point; entry `i` is
`w_pt * |d - T s_i|^2 + w_pl * (n . (d - T s_i))^2` for the running transform
`T`, a destination point `d` nearest to `T s_i` and its normal `n`, and it is
non-negative when both weights are. -/
theorem computeResiduals_nearest (search : NearestNeighborSearch)
    (s : CombinedMetricRigidICP3) (i : ℕ) (p d nrm : Vector3)
    (hdst : s.dst_points_ ≠ []) (hexact : IsExactNearest search)
    (hi : i < s.src_points_.length)
    (hp : p = s.transform_.apply (s.src_points_.getD i Vector3.zero))
    (hd : d = s.dst_points_.getD (search s.dst_points_ p) Vector3.zero)
    (hn : nrm = s.dst_normals_.getD (search s.dst_points_ p) Vector3.zero) :
    (computeResiduals search s).2.length = s.src_points_.length ∧
      (computeResiduals search s).2.getD i none =
        some (s.point_to_point_weight_ * (d.sub p).squaredNorm +
          s.point_to_plane_weight_ * (nrm.dot (d.sub p) * nrm.dot (d.sub p))) ∧
      (search s.dst_points_ p < s.dst_points_.length ∧
        ∀ j, j < s.dst_points_.length →
          (d.sub p).squaredNorm ≤ ((s.dst_points_.getD j Vector3.zero).sub p).squaredNorm) ∧
      (0 ≤ s.point_to_point_weight_ → 0 ≤ s.point_to_plane_weight_ →
        0 ≤ s.point_to_point_weight_ * (d.sub p).squaredNorm +
          s.point_to_plane_weight_ * (nrm.dot (d.sub p) * nrm.dot (d.sub p))) := by
  have hlen : s.dst_points_.length ≠ 0 := fun h => hdst (List.length_eq_zero.mp h)
  have hres : (computeResiduals search s).2 =
      (List.range s.src_points_.length).map (fun i => some (residualAt search s i)) := by
    simp [computeResiduals, hlen]
  refine ⟨by rw [hres]; simp, ?_, ?_, ?_⟩
  · rw [hres, List.getD_eq_getElem?_getD, List.getElem?_map, List.getElem?_range hi]
    simp only [Option.map_some', Option.getD_some, residualAt, ← hp, ← hd, ← hn, Option.some.injEq]
    ring
  · rw [hd]
    exact hexact s.dst_points_ p hdst
  · intro h1 h2
    have hsq : 0 ≤ (d.sub p).squaredNorm := by
      unfold Vector3.squaredNorm
      have a := mul_self_nonneg (d.sub p).x
      have b := mul_self_nonneg (d.sub p).y
      have c := mul_self_nonneg (d.sub p).z
      linarith
    exact add_nonneg (mul_nonneg h1 hsq) (mul_nonneg h2 (mul_self_nonneg _))

/-- Witness of C13: the first source point of the sample object is mapped to
`(0, 1, 1)`, its nearest destination point is `(0, 1, 0)` with normal
`(0, 0, 1)`, and its residual is `1/10 * 1 + 1 * 1`. -/
theorem computeResiduals_nearest_witness :
    (sampleICP.dst_points_ ≠ [] ∧ IsExactNearest exactNearestNeighborSearch ∧
        0 < sampleICP.src_points_.length) ∧
      (computeResiduals exactNearestNeighborSearch sampleICP).2.getD 0 none = some (11 / 10) :=
  ⟨⟨by decide!, exactNearestNeighborSearch_exact, by decide!⟩,
    (computeResiduals_nearest exactNearestNeighborSearch sampleICP 0 ⟨0, 1, 1⟩ ⟨0, 1, 0⟩
      ⟨0, 0, 1⟩ (by decide!) exactNearestNeighborSearch_exact (by decide!) (by decide!)
      (by decide!) (by decide!)).2.1.trans (by decide!)⟩

/-- C14: after `updateEstimate` the recorded convergence signal is
`sqrt(|R - I|_F^2 + |t|^2)` for the linear block `R` and the translation `t` of
the increment the estimator returned in that call; it is non-negative, and it
is zero exactly when the increment is the identity transform. -/
theorem updateEstimate_last_delta_norm (estimator : Estimator) (rotation : RotationExtraction)
    (s : CombinedMetricRigidICP3) :
    (updateEstimate estimator rotation s).last_delta_norm_.toReal =
        Real.sqrt ((((increment estimator s).linear.sub Matrix3.identity).squaredNorm : ℝ) +
          ((increment estimator s).translation.squaredNorm : ℝ)) ∧
      0 ≤ (updateEstimate estimator rotation s).last_delta_norm_.toReal ∧
      ((updateEstimate estimator rotation s).last_delta_norm_.toReal = 0 ↔
        increment estimator s = RigidTransformation.Identity) := by
  have hrad : (updateEstimate estimator rotation s).last_delta_norm_.radicand =
      ((increment estimator s).linear.sub Matrix3.identity).squaredNorm +
        (increment estimator s).translation.squaredNorm := rfl
  refine ⟨?_, Real.sqrt_nonneg _, ?_⟩
  · unfold SqrtValue.toReal
    rw [hrad]
    push_cast
    rfl
  · unfold SqrtValue.toReal
    rw [Real.sqrt_eq_zero', hrad]
    have hcast : ((((increment estimator s).linear.sub Matrix3.identity).squaredNorm +
        (increment estimator s).translation.squaredNorm : ℚ) : ℝ) ≤ 0 ↔
        ((increment estimator s).linear.sub Matrix3.identity).squaredNorm +
          (increment estimator s).translation.squaredNorm ≤ 0 := by
      exact_mod_cast Iff.rfl
    rw [hcast, sum_squares_eq_zero]
    generalize increment estimator s = inc
    obtain ⟨⟨a, b, c, d, e, f, g, h, i⟩, ⟨x, y, z⟩⟩ := inc
    simp only [Matrix3.sub, Matrix3.identity, RigidTransformation.Identity, Vector3.zero,
      RigidTransformation.mk.injEq, Matrix3.mk.injEq, Vector3.mk.injEq, sub_eq_zero, sub_zero]

/-- C15: `updateEstimate` hands the estimator the source points mapped by the
old running transform, and the new running transform is the product
`increment * T_old` with its linear block replaced by the extracted rotation;
when the extraction leaves orthonormal blocks alone and the product has an
orthonormal block, the new transform is that product and maps every point `p`
to `increment(T_old(p))`. -/
theorem updateEstimate_left_composition (estimator : Estimator) (rotation : RotationExtraction)
    (s : CombinedMetricRigidICP3) :
    (updateEstimate estimator rotation s).src_points_trans_ =
        s.src_points_.map s.transform_.apply ∧
      increment estimator s =
        estimator s.dst_points_ s.dst_normals_ (s.src_points_.map s.transform_.apply)
          s.correspondences_ s.point_to_point_weight_ s.point_to_plane_weight_
          s.max_optimization_iterations_ s.optimization_convergence_tol_ ∧
      (updateEstimate estimator rotation s).transform_ =
        ⟨rotation ((increment estimator s).compose s.transform_),
          ((increment estimator s).compose s.transform_).translation⟩ ∧
      (KeepsOrthonormal rotation →
        ((increment estimator s).compose s.transform_).linear.IsOrthonormal →
        (updateEstimate estimator rotation s).transform_ =
            (increment estimator s).compose s.transform_ ∧
          ∀ p, (updateEstimate estimator rotation s).transform_.apply p =
            (increment estimator s).apply (s.transform_.apply p)) := by
  refine ⟨rfl, rfl, rfl, fun hrot horth => ?_⟩
  have ht : (updateEstimate estimator rotation s).transform_ =
      (increment estimator s).compose s.transform_ := by
    show (⟨rotation ((increment estimator s).compose s.transform_),
      ((increment estimator s).compose s.transform_).translation⟩ : RigidTransformation) = _
    rw [hrot _ horth]
  exact ⟨ht, fun p => by rw [ht, compose_apply]⟩

/-- Witness of C15: for the sample object the estimator returns the quarter
turn, the product `quarterTurn * T_old` has an orthonormal block and becomes the
running transform; the product in the other order is a different transform. -/
theorem updateEstimate_left_composition_witness :
    (KeepsOrthonormal linearBlock ∧
        ((increment turningEstimator sampleICP).compose
          sampleICP.transform_).linear.IsOrthonormal) ∧
      (updateEstimate turningEstimator linearBlock sampleICP).transform_ =
        quarterTurn.compose sampleICP.transform_ ∧
      (updateEstimate turningEstimator linearBlock sampleICP).transform_ ≠
        sampleICP.transform_.compose quarterTurn :=
  have hk : KeepsOrthonormal linearBlock := fun _ _ => rfl
  have ho : ((increment turningEstimator sampleICP).compose
      sampleICP.transform_).linear.IsOrthonormal := by
    unfold Matrix3.IsOrthonormal
    decide!
  ⟨⟨hk, ho⟩,
    ((updateEstimate_left_composition turningEstimator linearBlock sampleICP).2.2.2 hk ho).1.trans
      (by decide!),
    by decide!⟩

/-- C16: when the correspondence set is empty, the estimator returns the
identity for an empty set, the rotation extraction leaves orthonormal blocks
alone and the running transform has an orthonormal block, `updateEstimate`
leaves the running transform as it was and records the signal zero. -/
theorem updateEstimate_empty_correspondences (estimator : Estimator)
    (rotation : RotationExtraction) (s : CombinedMetricRigidICP3)
    (hcorr : s.correspondences_ = [])
    (hest : ∀ dst nrm src w_pt w_pl max_iter tol,
      estimator dst nrm src [] w_pt w_pl max_iter tol = RigidTransformation.Identity)
    (hrot : KeepsOrthonormal rotation) (horth : s.transform_.linear.IsOrthonormal) :
    (updateEstimate estimator rotation s).transform_ = s.transform_ ∧
      (updateEstimate estimator rotation s).last_delta_norm_ = ⟨0⟩ ∧
      (updateEstimate estimator rotation s).last_delta_norm_.toReal = 0 := by
  have hinc : estimator s.dst_points_ s.dst_normals_ (s.src_points_.map s.transform_.apply)
      s.correspondences_ s.point_to_point_weight_ s.point_to_plane_weight_
      s.max_optimization_iterations_ s.optimization_convergence_tol_ =
      RigidTransformation.Identity := by
    rw [hcorr]
    exact hest _ _ _ _ _ _ _
  have hdelta : (updateEstimate estimator rotation s).last_delta_norm_ = ⟨0⟩ := by
    simp only [updateEstimate, hinc]
    simp [RigidTransformation.Identity, Matrix3.sub, Matrix3.identity, Matrix3.squaredNorm,
      Vector3.squaredNorm, Vector3.zero]
  refine ⟨?_, hdelta, ?_⟩
  · simp only [updateEstimate, hinc, identity_compose]
    rw [hrot _ horth]
  · rw [hdelta]
    simp [SqrtValue.toReal]

/-- Witness of C16: the sample object without correspondences keeps its running
transform under the estimator that answers the identity on an empty set. -/
theorem updateEstimate_empty_correspondences_witness :
    (sampleICPNoCorrespondence.correspondences_ = [] ∧
        sampleICPNoCorrespondence.transform_.linear.IsOrthonormal) ∧
      (updateEstimate turningEstimator linearBlock sampleICPNoCorrespondence).transform_ =
        sampleICPNoCorrespondence.transform_ :=
  have ho : sampleICPNoCorrespondence.transform_.linear.IsOrthonormal := by
    unfold Matrix3.IsOrthonormal
    decide!
  ⟨⟨rfl, ho⟩,
    (updateEstimate_empty_correspondences turningEstimator linearBlock
      sampleICPNoCorrespondence rfl (fun _ _ _ _ _ _ _ => rfl) (fun _ _ => rfl) ho).1⟩

end CombinedMetricRigidICP3

namespace ICPCorrespondenceSearchProjective3

/-- C17: a newly constructed search object reports through its getters the
intrinsic matrix `[[528,0,320],[0,528,240],[0,0,1]]`, the image width 640, the
image height 480, the identity extrinsic transform, the maximum distance
`0.01 * 0.01 = 1e-4` and the inlier fraction 1.0. -/
theorem constructor_defaults :
    new.getProjectionIntrinsicMatrix = ⟨528, 0, 320, 0, 528, 240, 0, 0, 1⟩ ∧
      new.getProjectionImageWidth = 640 ∧
      new.getProjectionImageHeight = 480 ∧
      new.getProjectionExtrinsicMatrix = RigidTransformation.Identity ∧
      new.getProjectionExtrinsicMatrix = ⟨⟨1, 0, 0, 0, 1, 0, 0, 0, 1⟩, ⟨0, 0, 0⟩⟩ ∧
      new.getMaxDistance = (1 / 100) * (1 / 100) ∧
      new.getMaxDistance = 1 / 10000 ∧
      new.getInlierFraction = 1 := by
  refine ⟨rfl, rfl, rfl, rfl, rfl, rfl, ?_, rfl⟩
  show ((1 / 100) * (1 / 100) : ℚ) = 1 / 10000
  norm_num

/-- C18: the pixel coordinate is the value rounded half away from zero and cast
to unsigned 64 bits. For an image extent `w` with `1 ≤ w ≤ 2^63` and an exact
projected coordinate `u` in the signed 64-bit range, the bounds test passes
exactly when `-1/2 < u < w - 1/2`; `u = -1/2` rounds to `-1`, which the cast
turns into `2^64 - 1`, and `u = w - 1/2` rounds to `w`. Columns and rows are
computed by that same rounding and cast. -/
theorem pixel_bounds_iff (w : ℕ) (u : ℚ) (hw1 : 1 ≤ w) (hw2 : w ≤ 2 ^ 63)
    (hlo : -(2 ^ 63 : ℚ) ≤ u) (hhi : u ≤ 2 ^ 63 - 1) :
    (toSizeT (llround u) < w ↔ -(1 / 2 : ℚ) < u ∧ u < (w : ℚ) - 1 / 2) ∧
      (llround (-(1 / 2)) = -1 ∧ toSizeT (-1) = 2 ^ 64 - 1) ∧
      llround ((w : ℚ) - 1 / 2) = (w : ℤ) ∧
      (∀ (K : Matrix3) (p : Vector3),
        pixelX K p = toSizeT (llround (p.x * K.m00 / p.z + K.m02)) ∧
          pixelY K p = toSizeT (llround (p.y * K.m11 / p.z + K.m12))) := by
  refine ⟨?_, ⟨?_, ?_⟩, ?_, fun K p => ⟨rfl, rfl⟩⟩
  · unfold llround toSizeT
    by_cases h0 : 0 ≤ u
    · rw [if_pos h0]
      have hz0 : 0 ≤ ⌊u + 1 / 2⌋ := Int.floor_nonneg.mpr (by linarith)
      have hzhi : ⌊u + 1 / 2⌋ < 2 ^ 63 := by
        rw [Int.floor_lt]
        push_cast
        linarith
      have hiff : ⌊u + 1 / 2⌋ < (w : ℤ) ↔ u < (w : ℚ) - 1 / 2 := by
        rw [Int.floor_lt]
        push_cast
        constructor <;> intro h <;> linarith
      constructor
      · intro h
        refine ⟨by linarith, hiff.mp ?_⟩
        omega
      · rintro ⟨-, h⟩
        have := hiff.mpr h
        omega
    · rw [if_neg h0]
      push_neg at h0
      have hk0 : 0 ≤ ⌊-u + 1 / 2⌋ := Int.floor_nonneg.mpr (by linarith)
      have hkhi : ⌊-u + 1 / 2⌋ ≤ 2 ^ 63 := by
        have : ⌊-u + 1 / 2⌋ < 2 ^ 63 + 1 := by
          rw [Int.floor_lt]
          push_cast
          linarith
        omega
      have hk1 : 1 ≤ ⌊-u + 1 / 2⌋ ↔ u ≤ -(1 / 2) := by
        rw [Int.le_floor]
        push_cast
        constructor <;> intro h <;> linarith
      have hw2z : (w : ℤ) ≤ 2 ^ 63 := by exact_mod_cast hw2
      constructor
      · intro h
        refine ⟨?_, ?_⟩
        · by_contra hc
          have := hk1.mpr (not_lt.mp hc)
          omega
        · have : (1 : ℚ) ≤ (w : ℚ) := by exact_mod_cast hw1
          linarith
      · rintro ⟨h, -⟩
        have : ¬ 1 ≤ ⌊-u + 1 / 2⌋ := fun hc => absurd (hk1.mp hc) (not_le.mpr h)
        omega
  · unfold llround
    norm_num
  · unfold toSizeT
    decide
  · unfold llround
    have hw : (1 : ℚ) ≤ (w : ℚ) := by exact_mod_cast hw1
    rw [if_pos (by linarith)]
    have : (w : ℚ) - 1 / 2 + 1 / 2 = ((w : ℤ) : ℚ) := by push_cast; ring
    rw [this, Int.floor_intCast]

/-- Witness of C18: for the extent 4 the coordinate `7/2` is in the signed range
and just at the upper limit `4 - 1/2`, so its pixel 4 fails the bounds test,
while `-1/2` fails it from below. -/
theorem pixel_bounds_iff_witness :
    ((1 ≤ 4 ∧ 4 ≤ 2 ^ 63) ∧ (-(2 ^ 63 : ℚ) ≤ 7 / 2 ∧ (7 / 2 : ℚ) ≤ 2 ^ 63 - 1)) ∧
      ¬ toSizeT (llround (7 / 2)) < 4 :=
  ⟨⟨⟨by decide, by decide⟩, by norm_num, by norm_num⟩,
    fun h => absurd ((pixel_bounds_iff 4 (7 / 2) (by decide) (by decide) (by norm_num)
      (by norm_num)).1.mp h).2 (by norm_num)⟩

/-! ### Orthonormal blocks -/

/-- C19: when the search rebuilds the index map in the call, from a destination
cloud of `N` points, the map has `width * height` cells, every cell the loop can
read lies inside it, every cell is empty or holds an index below `N`, and every
returned correspondence has `indexInFirst < N` and `indexInSecond` below the
number of source points. -/
theorem findCorrespondences_index_safety (s : ICPCorrespondenceSearchProjective3)
    (dst : List Vector3) (ev : Evaluator) (src : List Vector3)
    (hrebuild : s.index_map_.rows ≠ s.projection_image_width_ ∨
      s.index_map_.cols ≠ s.projection_image_height_) :
    ((s.findCorrespondences dst ev src).1.index_map_.rows = s.projection_image_width_ ∧
        (s.findCorrespondences dst ev src).1.index_map_.cols = s.projection_image_height_ ∧
        (s.findCorrespondences dst ev src).1.index_map_.data.length =
          s.projection_image_width_ * s.projection_image_height_) ∧
      (∀ x y, x < s.projection_image_width_ → y < s.projection_image_height_ →
        x + y * (s.findCorrespondences dst ev src).1.index_map_.rows <
          (s.findCorrespondences dst ev src).1.index_map_.data.length) ∧
      (∀ x y, (s.findCorrespondences dst ev src).1.index_map_.coeff x y = empty ∨
        (s.findCorrespondences dst ev src).1.index_map_.coeff x y < dst.length) ∧
      ∀ c ∈ (s.findCorrespondences dst ev src).2,
        c.indexInFirst < dst.length ∧ c.indexInSecond < src.length := by
  have hmap : (s.refreshIndexMap dst).index_map_ = s.rebuiltIndexMap dst := by
    unfold refreshIndexMap
    rw [if_pos hrebuild]
  have hlen := pointsToIndexMap_length dst s.projection_extrinsics_ s.projection_intrinsics_
    s.projection_image_width_ s.projection_image_height_
  have hcell : ∀ x y, (s.rebuiltIndexMap dst).coeff x y = empty ∨
      (s.rebuiltIndexMap dst).coeff x y < dst.length := by
    intro x y
    rw [coeff_rebuiltIndexMap]
    rcases indexMapFold_cell dst s.projection_extrinsics_ s.projection_intrinsics_
      s.projection_image_width_ s.projection_image_height_ dst.length
      (x + y * s.projection_image_width_) with h0 | h1
    · exact Or.inl h0
    · exact Or.inr h1.1
  rw [findCorrespondences_fst, hmap]
  refine ⟨⟨rfl, rfl, hlen⟩, ?_, hcell, ?_⟩
  · intro x y hx hy
    show x + y * s.projection_image_width_ < (pointsToIndexMap _ _ _ _ _).length
    rw [hlen]
    exact cell_lt x y _ _ hx hy
  · intro c hc
    have hm := mem_findCorrespondences_sub s dst ev src c hc
    rw [mem_compactedCorrespondences] at hm
    obtain ⟨i, hi, hp, -, rfl⟩ := hm
    refine ⟨?_, hi⟩
    have hne := hp.2.2.2
    show srcCell (s.refreshIndexMap dst) src i < dst.length
    unfold srcCell at hne ⊢
    rw [hmap] at hne ⊢
    rcases hcell (pixelX (s.refreshIndexMap dst).projection_intrinsics_
        (srcCam (s.refreshIndexMap dst) src i))
      (pixelY (s.refreshIndexMap dst).projection_intrinsics_
        (srcCam (s.refreshIndexMap dst) src i)) with h0 | h1
    · exact absurd h0 hne
    · exact h1

/-- Witness of C19: the small search has a cleared map, so its search on
`smallCloud` rebuilds the map, of 16 cells, and its entry `(2, 0, 1e-6)` has
both indices below 3. -/
theorem findCorrespondences_index_safety_witness :
    (smallSearch.index_map_.rows ≠ smallSearch.projection_image_width_ ∨
        smallSearch.index_map_.cols ≠ smallSearch.projection_image_height_) ∧
      (smallSearch.findCorrespondences smallCloud CorrespondenceDistanceEvaluator
        smallCloud).1.index_map_.data.length = 16 ∧
      (⟨2, 0, 1 / 1000000⟩ : Correspondence) ∈
        (smallSearch.findCorrespondences smallCloud CorrespondenceDistanceEvaluator
          smallCloud).2 ∧
      (⟨2, 0, 1 / 1000000⟩ : Correspondence).indexInFirst < smallCloud.length :=
  have h := findCorrespondences_index_safety smallSearch smallCloud
    CorrespondenceDistanceEvaluator smallCloud (by decide!)
  ⟨by decide!, h.1.2.2.trans (by decide!), by decide!,
    (h.2.2.2 ⟨2, 0, 1 / 1000000⟩ (by decide!)).1⟩

end ICPCorrespondenceSearchProjective3

end cilantro
